import Mathlib

/-!
Verification of the nyx-sdk dataset ingestion-and-query pipeline and its
authenticated API access layer, as a shallow embedding in Lean 4.

The repository ships two generations of the SDK side by side:
* the flat modules `nyx_client/data.py`, `nyx_client/utils.py`,
  `nyx_client/client.py` (keyword-based `Data`, the `Parser`
  ingestion/vector engine);
* the nested package `nyx_client/nyx_client/` (positional `Data`,
  `auth_retry` / `ensure_setup` decorators, `NyxClient._setup` and
  `NyxClient._authorise`).

External collaborators (HTTP transport, pandas parsing, sklearn TF-IDF)
are passed in as explicit environment records; everything else is
translated statement by statement from the source files.
-/

namespace NyxSdk

/-! ## Python-flavoured string and list helpers -/

/-- Python truthiness of an optional string: `None` and `""` are falsy. -/
def truthy : Option String → Bool
  | none => false
  | some s => s ≠ ""

/-- Python `s.replace(a, b)` for one-character `a` and `b` — the only
form the sources use (`" "`, `"."`, `"-"`, `"("`, `")"` to `"_"`). -/
def replaceChar (a b : Char) (s : String) : String :=
  ⟨s.toList.map (fun c => if c = a then b else c)⟩

/-- Python `s.lower()` (ASCII titles and column names in practice). -/
def pyLower (s : String) : String :=
  ⟨s.toList.map Char.toLower⟩

/-- Split a character list at every occurrence of a separator character
(Python `s.split(sep)` for a one-character separator: empty pieces are
kept, and a string without the separator yields itself). -/
def splitCharAux (sep : Char) : List Char → List Char → List (List Char)
  | [], acc => [acc.reverse]
  | c :: rest, acc =>
    if c = sep then acc.reverse :: splitCharAux sep rest []
    else splitCharAux sep rest (c :: acc)

/-- Python `s.split(sep)` for a one-character separator. -/
def splitChar (sep : Char) (s : String) : List String :=
  (splitCharAux sep s.toList []).map (fun l => ⟨l⟩)

/-- Python `s.startswith(p)`. -/
def startsWithPy (s p : String) : Bool :=
  p.toList.isPrefixOf s.toList

/-- `value.split("/")[-1]`: final `/`-separated segment of a string
(`str.split` always yields a non-empty list, so `[-1]` never fails). -/
def lastSegment (s : String) : String :=
  (splitChar '/' s).getLastD s

/-- Split a character list at every character satisfying a predicate. -/
def splitPredAux (p : Char → Bool) : List Char → List Char → List (List Char)
  | [], acc => [acc.reverse]
  | c :: rest, acc =>
    if p c then acc.reverse :: splitPredAux p rest []
    else splitPredAux p rest (c :: acc)

/-- `str.split()` with no arguments: split on whitespace, discarding
empty pieces. -/
def pyWords (s : String) : List String :=
  ((splitPredAux Char.isWhitespace s.toList []).map (fun l => (⟨l⟩ : String))).filter
    (fun w => w ≠ "")

/-- Python slice `l[start:]` with a possibly negative `start`. -/
def pySliceFrom {α : Type} (l : List α) (start : Int) : List α :=
  l.drop (if start < 0 then max 0 ((l.length : Int) + start)
          else min start (l.length : Int)).toNat

/-- Count occurrences of a character in a string (used to talk about the
number of `?` in a URL). -/
def countChar (c : Char) (s : String) : Nat :=
  (s.toList.filter (fun d => d = c)).length

/-! ## `Data` — keyword-based variant (`nyx_client/data.py`)

`Data.__init__` receives loosely-typed `**kwargs`; we model the keyword
map as a record of optional values (a key that is absent and a key bound
to a falsy value behave identically in every read the constructor
performs, except for the `.get(key, default)` reads, which we model with
`getD`). -/

/-- The keyword arguments accepted by `Data.__init__` in
`nyx_client/data.py`. -/
structure DataKwargs where
  title : Option String
  access_url : Option String
  download_url : Option String
  org : Option String
  size : Option Int
  creator : Option String
  name : Option String
  description : Option String
  mediaType : Option String
  deriving Repr, DecidableEq

/-- A constructed keyword-based `Data` value (fields mirror the `_`
attributes set by `__init__`). -/
structure Data where
  title : String
  access_url : Option String
  download_url : Option String
  org : String
  size : Int
  creator : Option String
  name : String
  description : String
  /-- raw `_content_type` attribute, before the `content_type` property
  applies its normalisation -/
  ct_raw : String
  deriving Repr, DecidableEq

/-- `Data.__init__` (`nyx_client/data.py:75-109`): raises `KeyError` when
`title` or `org` is falsy, or when both `access_url` and `download_url`
are falsy; `size` falls back to `0` when not convertible; `name` and
`description` have defaults; `_content_type` falls back to `"unknown"`
when `mediaType` is falsy. -/
def Data.init (kw : DataKwargs) : Except String Data :=
  if ¬ truthy kw.title ∨ ¬ truthy kw.org then
    .error "Required fields include title and org"
  else if ¬ (truthy kw.access_url ∨ truthy kw.download_url) then
    .error "At least one of access_url or download_url is required"
  else
    .ok
      { title := kw.title.getD ""
        access_url := kw.access_url
        download_url := kw.download_url
        org := kw.org.getD ""
        size := kw.size.getD 0
        creator := kw.creator
        name := kw.name.getD "unknown"
        description := kw.description.getD "unkown description"
        ct_raw := match kw.mediaType with
          | some ct => if ct ≠ "" then ct else "unknown"
          | none => "unknown" }

/-- The shared content-type normalisation (`nyx_client/data.py:56-61` as
the `content_type` property, and `nyx_client/nyx_client/data.py:85-87`
inline in `__init__`): only values starting with `"http"` are reduced to
their final `/`-segment. -/
def normalizeContentType (ct : String) : String :=
  if startsWithPy ct "http" then lastSegment ct else ct

/-- The `Data.content_type` property of the keyword-based variant. -/
def Data.content_type (d : Data) : String :=
  normalizeContentType d.ct_raw

/-- The `Data.url` property (`nyx_client/data.py:63-68`): falls back to
the download URL when the access URL is falsy, otherwise appends the
`?buyer_org=` suffix. -/
def Data.url (d : Data) : Option String :=
  if ¬ truthy d.access_url then d.download_url
  else some (d.access_url.getD "" ++ "?buyer_org=" ++ d.org)

/-- `Data.download` (`nyx_client/data.py:114-139`) issues
`requests.get(self.url)` and returns `None` on any request failure
(including the `Invalid URL` failure triggered by a `None` url). The
HTTP transport is the environment `http : String → Option String`. -/
def Data.download (http : String → Option String) (d : Data) : Option String :=
  match d.url with
  | none => none
  | some u => http u

/-! ## `Data` — positional variant (`nyx_client/nyx_client/data.py`) -/

/-- The positional-parameter `Data` of the nested package. -/
structure NData where
  name : String
  title : String
  description : String
  org : String
  url : String
  content_type : String
  creator : String
  categories : List String
  genre : String
  size : Int
  connection_id : Option String
  deriving Repr, DecidableEq

/-- `Data.__init__` (`nyx_client/nyx_client/data.py:60-93`): performs no
validation; unconditionally appends `?buyer_org={org}` to the supplied
url, and reduces an `"http"`-prefixed content type to its final
`/`-segment. -/
def NData.init (name title description org url content_type creator : String)
    (categories : List String) (genre : String) (size : Int)
    (connection_id : Option String) : NData :=
  { name := name
    title := title
    description := description
    org := org
    url := url ++ "?buyer_org=" ++ org
    content_type := normalizeContentType content_type
    creator := creator
    categories := categories
    genre := genre
    size := size
    connection_id := connection_id }

/-! ## Semantic chunk index (`nyx_client/utils.py`, class `Parser`)

The TF-IDF vectorizer and `cosine_similarity` are external (sklearn);
they enter as an environment `TfidfEnv` over an abstract vector type.
`numpy.argsort` is modelled as the ascending sort of the index list by
`(value, index)` lexicographic order — the behaviour of a stable
ascending argsort (ties keep ascending original-index order). -/

/-- `Metadata` (`nyx_client/utils.py:36-43`); `url` is whatever `d.url`
produced, possibly `None`. -/
structure Metadata where
  title : String
  url : Option String
  description : String
  deriving Repr, DecidableEq

/-- `VectorResult` (`nyx_client/utils.py:46-60`). -/
structure VectorResult where
  chunks : List String
  metadata : List Metadata
  similarities : List ℚ
  success : Bool
  message : String
  deriving Repr, DecidableEq

/-- The sklearn surface used by `Parser`: `fit_transform` fits the
vectorizer on the corpus and yields the fitted transform plus one vector
per chunk; `cosine` is one entry of `cosine_similarity(query, vectors)[0]`. -/
structure TfidfEnv (V : Type) where
  fit_transform : List String → (String → V) × List V
  cosine : V → V → ℚ

/-- The mutable state of a `Parser` instance: `vectors`, `vectorizer`
and `chunks` start as `None` (`__init__`, `nyx_client/utils.py:131-135`);
`metadata` is only assigned when the index is built. -/
structure ParserState (V : Type) where
  vectorizer : Option (String → V)
  vectors : Option (List V)
  chunks : Option (List String)
  metadata : List Metadata

/-- A freshly constructed `Parser()`. -/
def parserInit (V : Type) : ParserState V :=
  { vectorizer := none, vectors := none, chunks := none, metadata := [] }

/-- Word windows: `[words[i:i+size] for i in range(0, len(words), size)]`.
Recursion on a fuel bounded by the word count; faithful for `size ≥ 1`
(Python raises `ValueError` on `range` step `0`, a case no caller
exercises since `chunk_size` defaults to `1000`). -/
def chunkWordsAux (size : Nat) : Nat → List String → List (List String)
  | _, [] => []
  | 0, _ => []
  | fuel + 1, ws => ws.take size :: chunkWordsAux size fuel (ws.drop size)

/-- `Parser._chunk_text` (`nyx_client/utils.py:350-353`). -/
def chunk_text (text : String) (size : Nat) : List String :=
  let ws := pyWords text
  (chunkWordsAux size ws.length ws).map (fun g => String.intercalate " " g)

/-- The chunk/metadata accumulation loop of `Parser.data_as_vectors`
(`nyx_client/utils.py:256-267`): non-`csv` datasets whose download
yields truthy (non-empty) content contribute their chunks, with the
dataset metadata repeated once per chunk. -/
def collectChunks (http : String → Option String) (data : List Data)
    (chunk_size : Nat) : List String × List Metadata :=
  data.foldl
    (fun acc d =>
      if d.content_type ≠ "csv" then
        match Data.download http d with
        | some content =>
          if content ≠ "" then
            let cs := chunk_text content chunk_size
            (acc.1 ++ cs, acc.2 ++ cs.map (fun _ => ⟨d.title, d.url, d.description⟩))
          else acc
        | none => acc
      else acc)
    ([], [])

/-- `Parser.data_as_vectors` (`nyx_client/utils.py:240-275`): when no
chunks were collected the method returns early and the state is left
untouched (the index stays unbuilt); otherwise all four fields are
replaced wholesale. -/
def data_as_vectors {V : Type} (http : String → Option String) (tenv : TfidfEnv V)
    (data : List Data) (chunk_size : Nat) (st : ParserState V) : ParserState V :=
  let collected := collectChunks http data chunk_size
  if collected.1 = [] then st
  else
    let fitted := tenv.fit_transform collected.1
    { vectorizer := some fitted.1
      vectors := some fitted.2
      chunks := some collected.1
      metadata := collected.2 }

/-- Strict lexicographic order on indices by `(key, index)`: the order an
ascending stable argsort realises. -/
def lexLt (key : Nat → ℚ) (i j : Nat) : Prop :=
  key i < key j ∨ (key i = key j ∧ i < j)

instance (key : Nat → ℚ) (i j : Nat) : Decidable (lexLt key i j) := by
  unfold lexLt; infer_instance

/-- Insert index `i` into a `lexLt`-sorted index list. -/
def insertIdx (key : Nat → ℚ) (i : Nat) : List Nat → List Nat
  | [] => [i]
  | j :: rest =>
    if lexLt key i j then i :: j :: rest
    else j :: insertIdx key i rest

/-- `numpy.argsort` over a similarity row, modelled as the stable
ascending argsort (insertion sort by `(value, index)`). -/
def argsortAsc (sims : List ℚ) : List Nat :=
  (List.range sims.length).foldr (insertIdx (fun i => sims.getD i 0)) []

/-- The failure result returned by `Parser.query` on an unbuilt index
(`nyx_client/utils.py:297-303`). -/
def queryFailure : VectorResult :=
  { chunks := [], metadata := [], similarities := [], success := false
    message := "content not processed, or not present on the data (do you have access?)" }

/-- The failure result returned by `Parser.find_matching_chunk` when no
vectors are present (`nyx_client/utils.py:328-334`). -/
def matchFailure : VectorResult :=
  { chunks := [], metadata := [], similarities := [], success := false
    message := "content has either not been processed, or you have no plain text" }

/-- `cosine_similarity(query_vector, self.vectors)[0]`: one similarity
per indexed chunk. -/
def simsOf {V : Type} (tenv : TfidfEnv V) (query_vector : V) (vecs : List V) : List ℚ :=
  vecs.map (tenv.cosine query_vector)

/-- `similarities[0].argsort()[-k:][::-1]`. -/
def topIdx (sims : List ℚ) (k : Int) : List Nat :=
  (pySliceFrom (argsortAsc sims) (-k)).reverse

/-- `Parser.find_matching_chunk` (`nyx_client/utils.py:307-348`): the
chunk, similarity and metadata at each selected index. Python list
indexing is modelled with `getD`; the selected indices are always in
range for the `sims` row, and in any state produced by
`data_as_vectors` the chunk and metadata lists have the same length as
`vectors`. -/
def find_matching_chunk {V : Type} (tenv : TfidfEnv V) (st : ParserState V)
    (query_vector : V) (k : Int) : VectorResult :=
  match st.vectors with
  | none => matchFailure
  | some vecs =>
    let sims := simsOf tenv query_vector vecs
    { chunks := (topIdx sims k).map (fun i => (st.chunks.getD []).getD i "")
      metadata := (topIdx sims k).map (fun i => st.metadata.getD i ⟨"", none, ""⟩)
      similarities := (topIdx sims k).map (fun i => sims.getD i 0)
      success := true
      message := "" }

/-- `Parser.query` (`nyx_client/utils.py:277-305`): a structured failure
(never an exception — the embedding is a total function) when the
vectorizer is not initialised, otherwise transform and search. -/
def query {V : Type} (tenv : TfidfEnv V) (st : ParserState V)
    (text : String) (k : Int) : VectorResult :=
  match st.vectorizer with
  | none => queryFailure
  | some model => find_matching_chunk tenv st (model text) k

/-! ## Authenticated access layer (`nyx_client/nyx_client/utils.py` and
`nyx_client/nyx_client/client.py`)

An API attempt either returns a value, raises
`requests.exceptions.HTTPError` with a response status code, or raises
some other exception. The wrapped method is an oracle `f : Nat → Outcome α`
giving the outcome of its n-th invocation within one wrapper call. -/

/-- Outcome of one Python call: normal return, `HTTPError` with status,
or any other exception. -/
inductive Outcome (α : Type) where
  | ok (a : α)
  | httpError (status : Nat)
  | exn
  deriving Repr, DecidableEq

/-- The instance state of `NyxClient` touched by the access layer, plus
the `_retried` attribute `auth_retry` keeps on the wrapper function
(`getattr(wrapper, "_retried", False)` reads it with default `False`). -/
structure ClientState where
  is_setup : Bool
  token : Option String
  refresh : String
  name : String
  org : String
  community_mode : Bool
  retried : Bool
  deriving Repr, DecidableEq

/-- `NyxClient._authorise` (`nyx_client/nyx_client/client.py:142-153`):
with `refresh=False` and a present token it returns without any network
call; otherwise it performs the login POST (outcome `login`), storing
both tokens on success. The `Nat` counts login POSTs performed. -/
def authorise (login : Outcome (String × String)) (refresh : Bool)
    (st : ClientState) : Outcome Unit × ClientState × Nat :=
  if ¬ refresh ∧ st.token.isSome then (.ok (), st, 0)
  else
    match login with
    | .ok tr => (.ok (), { st with token := some tr.1, refresh := tr.2 }, 1)
    | .httpError s => (.httpError s, st, 1)
    | .exn => (.exn, st, 1)

/-- Trace of one top-level invocation of an `auth_retry`-wrapped method:
its result, the final client state, the number of invocations of the
wrapped function, and the number of login POSTs triggered. -/
structure RetryResult (α : Type) where
  result : Outcome α
  state : ClientState
  attempts : Nat
  logins : Nat
  deriving Repr, DecidableEq

/-- `auth_retry` (`nyx_client/nyx_client/utils.py:32-51`): one attempt;
on `HTTPError` with status 401 when `_retried` is not yet set, it sets
the flag, forces `self._authorise(refresh=True)` and re-invokes the
function once, its outcome (success or error) propagating to the caller;
any other error re-raises. The `finally` clause clears `_retried` on
every exit path. A failure of the forced login itself propagates before
any retry. -/
def auth_retry {α : Type} (login : Outcome (String × String))
    (f : Nat → Outcome α) (st : ClientState) : RetryResult α :=
  match f 0 with
  | .ok a => ⟨.ok a, { st with retried := false }, 1, 0⟩
  | .httpError s1 =>
    if s1 = 401 ∧ st.retried = false then
      let st1 := { st with retried := true }
      match authorise login true st1 with
      | (.ok _, st2, n) => ⟨f 1, { st2 with retried := false }, 2, n⟩
      | (.httpError s2, st2, n) => ⟨.httpError s2, { st2 with retried := false }, 1, n⟩
      | (.exn, st2, n) => ⟨.exn, { st2 with retried := false }, 1, n⟩
    else ⟨.httpError s1, { st with retried := false }, 1, 0⟩
  | .exn => ⟨.exn, { st with retried := false }, 1, 0⟩

/-- Outcomes of the three API interactions `_setup` performs: the login
POST, `GET users/me` (giving `name`), and `GET auth/qapi-connection`
(giving `community_mode` and `org_name`). -/
structure SetupEnv where
  login : Outcome (String × String)
  usersMe : Outcome String
  qapi : Outcome (Bool × String)

/-- `NyxClient._setup` (`nyx_client/nyx_client/client.py:123-140`):
`_is_setup` is assigned `True` as the very first statement ("so API
calls don't re-call setup") and is never rolled back; then
`_authorise(refresh=False)`, then the two GETs, any failure propagating
at once with the earlier assignments retained. -/
def setup (env : SetupEnv) (st : ClientState) : Outcome Unit × ClientState :=
  match authorise env.login false { st with is_setup := true } with
  | (.ok _, st2, _) =>
    match env.usersMe with
    | .ok nm =>
      match env.qapi with
      | .ok q =>
        (.ok (), { st2 with name := nm, community_mode := q.1,
                            org := if q.1 then q.2 ++ "/" ++ nm else q.2 })
      | .httpError s => (.httpError s, { st2 with name := nm })
      | .exn => (.exn, { st2 with name := nm })
    | .httpError s => (.httpError s, st2)
    | .exn => (.exn, st2)
  | (.httpError s, st2, _) => (.httpError s, st2)
  | (.exn, st2, _) => (.exn, st2)

/-- `ensure_setup` (`nyx_client/nyx_client/utils.py:20-29`): call
`_setup` first when `_is_setup` is unset, propagating a setup failure
without invoking the wrapped function; the `Nat` counts `_setup`
invocations performed by this call. -/
def ensure_setup {α : Type} (env : SetupEnv)
    (f : ClientState → Outcome α × ClientState) (st : ClientState) :
    Outcome α × ClientState × Nat :=
  if st.is_setup = false then
    match setup env st with
    | (.ok _, st1) => let r := f st1; (r.1, r.2, 1)
    | (.httpError s, st1) => (.httpError s, st1, 1)
    | (.exn, st1) => (.exn, st1, 1)
  else
    let r := f st
    (r.1, r.2, 0)

/-- A freshly constructed client with no override token
(`NyxClient.__init__`, `nyx_client/nyx_client/client.py:89-121`). -/
def clientInit : ClientState :=
  { is_setup := false, token := none, refresh := "", name := "", org := ""
    community_mode := false, retried := false }

/-! ## Tabular ingestion engine (`Parser.data_as_db`, `nyx_client/utils.py:137-222`)

pandas parsing is external: the environment supplies the outcome of
`pd.read_csv` / `pd.read_excel` / `pd.read_json` on given text. The
relational store is an association list from table name to a table
value, in creation order; `to_sql` without an `if_exists` argument uses
pandas' default `"fail"` policy. `data_as_db` starts from a fresh
in-memory database (the `sqlite_file` path merely changes where the same
initially-empty store lives). A raised, uncaught exception is the
`.error` case of the result. -/

/-- How a pandas read fails: `pd.errors.ParserError` (caught by the
dedicated handler) or any other exception (caught by the generic
handler) — both cause the dataset to be skipped. -/
inductive PdError where
  | parserError
  | otherError
  deriving Repr, DecidableEq

/-- An abstract parsed DataFrame: its column names and row count. -/
structure PdTable where
  cols : List String
  nrows : Nat
  deriving Repr, DecidableEq

/-- External collaborators of `data_as_db`: the HTTP transport used by
`Data.download`, and the three pandas readers. -/
structure IngestEnv where
  http : String → Option String
  read_csv : String → Except PdError PdTable
  read_excel : String → Except PdError PdTable
  read_json : String → Except PdError PdTable

/-- A row of the in-memory manifest list (`tables.append([...])`,
`nyx_client/utils.py:203` and `:216`). -/
structure ManifestRow where
  file_title : String
  url : Option String
  table_name : String
  description : String
  deriving Repr, DecidableEq

/-- A table stored in the SQLite database: a parsed dataset table, a
one-row-per-write chunk table (`context`, `title`, `url` columns), or
the manifest table. -/
inductive TableVal where
  | data (t : PdTable)
  | chunk (rows : List (String × String × Option String))
  | manifest (cols : List String) (rows : List ManifestRow)
  deriving Repr, DecidableEq

/-- The relational store: name/table pairs in creation order. -/
abbrev DB := List (String × TableVal)

/-- The `if_exists` argument of `DataFrame.to_sql`. -/
inductive IfExists where
  | fail
  | replace
  | append
  deriving Repr, DecidableEq

/-- Appending a DataFrame to an existing SQL table succeeds only when
the shapes agree (otherwise pandas/sqlite raise). -/
def appendTables : TableVal → TableVal → Option TableVal
  | .data t1, .data t2 =>
    if t1.cols = t2.cols then some (.data ⟨t1.cols, t1.nrows + t2.nrows⟩) else none
  | .chunk r1, .chunk r2 => some (.chunk (r1 ++ r2))
  | .manifest c1 r1, .manifest c2 r2 =>
    if c1 = c2 then some (.manifest c1 (r1 ++ r2)) else none
  | _, _ => none

/-- `DataFrame.to_sql(name, engine)` with pandas' default
`if_exists="fail"`: raises (`.error`) when the table already exists. -/
def to_sql_fail (db : DB) (nm : String) (t : TableVal) : Except Unit DB :=
  if (db.lookup nm).isSome then .error () else .ok (db ++ [(nm, t)])

/-- `DataFrame.to_sql(name, engine, if_exists=...)`. -/
def to_sql (ifx : IfExists) (db : DB) (nm : String) (t : TableVal) : Except Unit DB :=
  match db.lookup nm with
  | none => .ok (db ++ [(nm, t)])
  | some old =>
    match ifx with
    | .fail => .error ()
    | .replace => .ok (db.filter (fun e => e.1 ≠ nm) ++ [(nm, t)])
    | .append =>
      match appendTables old t with
      | some merged => .ok (db.map (fun e => if e.1 = nm then (nm, merged) else e))
      | none => .error ()

/-- The slugging applied to one value inside `Parser.normalise_values`. -/
def norm_value (v : String) : String :=
  replaceChar ')' '_' (replaceChar '(' '_' (replaceChar '-' '_' (replaceChar '.' '_' (replaceChar ' ' '_' (pyLower v)))))

/-- `Parser.normalise_values` (`nyx_client/utils.py:224-238`): falsy
values are dropped by the comprehension filter, the rest are slugged. -/
def normalise_values (values : List String) : List String :=
  (values.filter (fun v => v ≠ "")).map norm_value

/-- `Parser._excel_mimes` (`nyx_client/utils.py:124-129`). -/
def excelMimes : List String :=
  ["vnd.openxmlformats-officedocument.spreadsheetml.sheet", "vnd.ms-excel"]

/-- The content-type dispatch of the ingestion loop
(`nyx_client/utils.py:184-191`): `none` means unsupported (skip). -/
def parseContent (env : IngestEnv) (d : Data) (content : String) :
    Option (Except PdError PdTable) :=
  if d.content_type = "csv" then some (env.read_csv content)
  else if excelMimes.contains d.content_type then some (env.read_excel content)
  else if d.content_type = "json" then some (env.read_json content)
  else none

/-- One iteration of the `for d in data` loop
(`nyx_client/utils.py:178-203`). Every failure path — no content,
unsupported type, parse error, empty slug (an `IndexError` from `[0]`),
or `to_sql` refusing an existing table — is caught and skips the
dataset; success appends the table and the manifest row. -/
def processData (env : IngestEnv) (acc : DB × List ManifestRow) (d : Data) :
    DB × List ManifestRow :=
  match Data.download env.http d with
  | none => acc
  | some content =>
    match parseContent env d content with
    | none => acc
    | some (.error _) => acc
    | some (.ok tbl) =>
      let tbl2 : PdTable := { tbl with cols := normalise_values tbl.cols }
      match normalise_values [d.title] with
      | [] => acc
      | tname :: _ =>
        match to_sql_fail acc.1 tname (.data tbl2) with
        | .error _ => acc
        | .ok db2 => (db2, acc.2 ++ [⟨d.title, d.url, replaceChar ' ' '_' d.title, d.description⟩])

/-- One iteration of the supplementary-chunk loop
(`nyx_client/utils.py:206-216`): `additional_information.metadata[i]`
raises `IndexError` (uncaught) when metadata is shorter than chunks;
the chunk table write honours the caller's `if_exists` and its failure
is uncaught. -/
def addInfoStep (ifx : IfExists) (vr : VectorResult)
    (acc : DB × List ManifestRow) (i : Nat) : Except Unit (DB × List ManifestRow) :=
  match vr.metadata.get? i with
  | none => .error ()
  | some meta =>
    let nm := replaceChar ' ' '_' meta.title
    match to_sql ifx acc.1 nm (.chunk [(vr.chunks.getD i "", meta.title, meta.url)]) with
    | .error _ => .error ()
    | .ok db2 => .ok (db2, acc.2 ++ [⟨meta.title, meta.url, nm, meta.description⟩])

/-- The supplementary-chunk loop over `range(len(chunks))`. -/
def addInfoLoop (ifx : IfExists) (vr : VectorResult) :
    List Nat → DB × List ManifestRow → Except Unit (DB × List ManifestRow)
  | [], acc => .ok acc
  | i :: is, acc =>
    match addInfoStep ifx vr acc i with
    | .error e => .error e
    | .ok acc2 => addInfoLoop ifx vr is acc2

/-- The column names assigned to the manifest DataFrame
(`nyx_client/utils.py:219`). -/
def manifestColumns : List String :=
  ["file_title", "url", "table_name", "description"]

/-- The guarded supplementary-chunk stage
(`if additional_information and additional_information.chunks:`,
`nyx_client/utils.py:205`). -/
def afterChunksOf (if_exists : IfExists) (additional_information : Option VectorResult)
    (folded : DB × List ManifestRow) : Except Unit (DB × List ManifestRow) :=
  match additional_information with
  | some vr =>
    if vr.chunks ≠ [] then
      addInfoLoop if_exists vr (List.range vr.chunks.length) folded
    else .ok folded
  | none => .ok folded

/-- `Parser.data_as_db` (`nyx_client/utils.py:137-222`) against a fresh
store: early return on an empty dataset list (before the supplementary
chunks and the manifest are even considered); then the per-dataset loop,
the supplementary-chunk loop, and the final manifest write under the
name `nyx_subscriptions` — only when at least one manifest row exists. -/
def data_as_db (env : IngestEnv) (data : List Data)
    (additional_information : Option VectorResult) (if_exists : IfExists) :
    Except Unit DB :=
  if data.length = 0 then .ok []
  else
    match afterChunksOf if_exists additional_information
        (data.foldl (processData env) ([], [])) with
    | .error e => .error e
    | .ok (db, rows) =>
      if rows.length > 0 then
        to_sql if_exists db "nyx_subscriptions" (.manifest manifestColumns rows)
      else .ok db

/-! ### Independent characterisation of the per-run ingestion outcome -/

/-- Whether the loop skips dataset `d` for one of the reasons the spec
names: failed download, unsupported content type, or parse failure. -/
def itemSkipped (env : IngestEnv) (d : Data) : Bool :=
  match Data.download env.http d with
  | none => true
  | some content =>
    match parseContent env d content with
    | some (.ok _) => false
    | _ => true

/-- Whether dataset `d` reaches the success path given the table names
already present in the store. -/
def itemIngestOk (env : IngestEnv) (names : List String) (d : Data) : Bool :=
  match Data.download env.http d with
  | none => false
  | some content =>
    match parseContent env d content with
    | some (.ok _) =>
      match normalise_values [d.title] with
      | [] => false
      | tname :: _ => !(names.contains tname)
    | _ => false

/-- The datasets that reach the success path, in loop order, threading
the set of created table names. -/
def ingestedAux (env : IngestEnv) (names : List String) : List Data → List Data
  | [] => []
  | d :: ds =>
    if itemIngestOk env names d then
      d :: ingestedAux env (names ++ normalise_values [d.title]) ds
    else ingestedAux env names ds

/-- The datasets one full `data_as_db` run ingests. -/
def ingestedData (env : IngestEnv) (data : List Data) : List Data :=
  ingestedAux env [] data

/-- The manifest row contributed by a successfully ingested dataset
(`nyx_client/utils.py:203`): the recorded `table_name` replaces spaces
only — it is not the slug used for the actual table name. -/
def manifestRowOfData (d : Data) : ManifestRow :=
  ⟨d.title, d.url, replaceChar ' ' '_' d.title, d.description⟩

/-- The manifest row contributed by one supplementary chunk
(`nyx_client/utils.py:216`). -/
def manifestRowOfMeta (m : Metadata) : ManifestRow :=
  ⟨m.title, m.url, replaceChar ' ' '_' m.title, m.description⟩

/-- The table written for an ingested dataset and its name. -/
def ingestedTableVal (env : IngestEnv) (d : Data) : Option (String × TableVal) :=
  match Data.download env.http d with
  | none => none
  | some content =>
    match parseContent env d content with
    | some (.ok tbl) =>
      match normalise_values [d.title] with
      | [] => none
      | tname :: _ => some (tname, .data { tbl with cols := normalise_values tbl.cols })
    | _ => none

/-- The manifest rows contributed by the supplementary chunks on a
non-raising run. -/
def chunkRows (additional_information : Option VectorResult) : List ManifestRow :=
  match additional_information with
  | some vr =>
    if vr.chunks ≠ [] then (vr.metadata.take vr.chunks.length).map manifestRowOfMeta
    else []
  | none => []

/-- All manifest rows a non-raising `data_as_db` run accumulates. -/
def runRows (env : IngestEnv) (data : List Data)
    (additional_information : Option VectorResult) : List ManifestRow :=
  if data.length = 0 then []
  else (ingestedData env data).map manifestRowOfData ++ chunkRows additional_information

/-- Reading the manifest back from the store. -/
def manifestRowsOf (db : DB) : List ManifestRow :=
  match db.lookup "nyx_subscriptions" with
  | some (.manifest _ rows) => rows
  | _ => []

/-- Whether a stored table is a parsed dataset table. -/
def isDataTable : TableVal → Bool
  | .data _ => true
  | _ => false

/-! ## Shared concrete fixtures for witnesses and counterexamples -/

/-- A trivial sklearn environment over the unit vector type. -/
def tenvW : TfidfEnv Unit :=
  { fit_transform := fun cs => (fun _ => (), cs.map (fun _ => ()))
    cosine := fun _ _ => 0 }

/-- An ingestion environment where every URL serves one tiny CSV and
only the CSV reader succeeds. -/
def envFix : IngestEnv :=
  { http := fun _ => some "id\n1"
    read_csv := fun _ => .ok ⟨["id"], 1⟩
    read_excel := fun _ => .error .otherError
    read_json := fun _ => .error .otherError }

/-- A CSV-typed descriptor whose title needs lowercasing when slugged. -/
def dSales : Data :=
  { title := "Sales", access_url := some "http://x", download_url := none
    org := "o", size := 0, creator := none, name := "n"
    description := "desc", ct_raw := "csv" }

/-- A CSV-typed descriptor with an all-lowercase single-word title. -/
def dLower : Data :=
  { title := "a", access_url := some "http://x", download_url := none
    org := "o", size := 0, creator := none, name := "n"
    description := "desc", ct_raw := "csv" }

/-- A CSV-typed descriptor whose slug collides with the manifest table. -/
def dNyx : Data :=
  { title := "Nyx Subscriptions", access_url := some "http://x", download_url := none
    org := "o", size := 0, creator := none, name := "n"
    description := "desc", ct_raw := "csv" }

/-! ## Claim theorems: descriptor construction and URL handling -/

/-- C9: constructing a keyword-based Dataset Descriptor succeeds exactly
when the title and the organization are truthy and at least one of the
access URL and the download URL is truthy; in every other case
`Data.__init__` raises its `KeyError` validation error. (In the
positional-parameter variant all of these arguments are required by the
language itself, so none of them can be absent.) -/
theorem data_init_validation (kw : DataKwargs) :
    ((∃ d, Data.init kw = .ok d) ↔
      (truthy kw.title = true ∧ truthy kw.org = true ∧
        (truthy kw.access_url = true ∨ truthy kw.download_url = true))) ∧
    ((∃ e, Data.init kw = .error e) ↔
      ¬ (truthy kw.title = true ∧ truthy kw.org = true ∧
        (truthy kw.access_url = true ∨ truthy kw.download_url = true))) := by
  cases ht : truthy kw.title <;> cases ho : truthy kw.org <;>
    cases ha : truthy kw.access_url <;> cases hdu : truthy kw.download_url <;>
    simp [Data.init, ht, ho, ha, hdu]

/-- C8 (amended): only a supplied content type that starts with `"http"`
(a URI-like value) is normalized to its final `/`-separated path
segment; every other value — including an IANA `type/subtype` MIME form
such as `text/csv` — is stored unchanged. Both descriptor variants apply
the same rule. -/
theorem content_type_normalisation :
    (∀ kw d, Data.init kw = .ok d →
      (startsWithPy d.ct_raw "http" = true → Data.content_type d = lastSegment d.ct_raw) ∧
      (startsWithPy d.ct_raw "http" = false → Data.content_type d = d.ct_raw)) ∧
    (∀ name title desc org u ct creator cats genre size cid,
      (startsWithPy ct "http" = true →
        (NData.init name title desc org u ct creator cats genre size cid).content_type
          = lastSegment ct) ∧
      (startsWithPy ct "http" = false →
        (NData.init name title desc org u ct creator cats genre size cid).content_type = ct)) := by
  constructor
  · intro kw d _
    constructor
    · intro h; simp [Data.content_type, normalizeContentType, h]
    · intro h; simp [Data.content_type, normalizeContentType, h]
  · intro name title desc org u ct creator cats genre size cid
    constructor
    · intro h; simp [NData.init, normalizeContentType, h]
    · intro h; simp [NData.init, normalizeContentType, h]

/-- Witness for C8's amended theorem at a URI-valued and at a bare
content type. -/
theorem content_type_normalisation_w :
    (startsWithPy "http://purl.org/coar/resource_type/csv" "http" = true ∧
      (NData.init "n" "t" "d" "o" "u" "http://purl.org/coar/resource_type/csv" "c" [] "g" 0
          none).content_type = lastSegment "http://purl.org/coar/resource_type/csv") ∧
    (startsWithPy "csv" "http" = false ∧
      (NData.init "n" "t" "d" "o" "u" "csv" "c" [] "g" 0 none).content_type = "csv") :=
  ⟨⟨by decide,
    (content_type_normalisation.2 "n" "t" "d" "o" "u" "http://purl.org/coar/resource_type/csv"
      "c" [] "g" 0 none).1 (by decide)⟩,
   ⟨by decide,
    (content_type_normalisation.2 "n" "t" "d" "o" "u" "csv" "c" [] "g" 0 none).2 (by decide)⟩⟩

/-- C8 counterexample: a `type/subtype` MIME content type carries an
IANA prefix, yet both variants store `text/csv` unchanged rather than
its final path segment `csv` (the repository's own tests pin this). -/
theorem content_type_mime_cex :
    (∃ d, Data.init
        { title := some "Test Data", access_url := some "http://example.com",
          download_url := none, org := some "TestOrg", size := none, creator := none,
          name := none, description := none, mediaType := some "text/csv" } = .ok d ∧
      Data.content_type d = "text/csv") ∧
    (NData.init "n" "Test" "d" "TestOrg" "u" "text/csv" "c" [] "g" 0 none).content_type
      = "text/csv" ∧
    "text/csv" ≠ "csv" := by
  refine ⟨⟨{ title := "Test Data", access_url := some "http://example.com",
             download_url := none, org := "TestOrg", size := 0, creator := none,
             name := "unknown", description := "unkown description",
             ct_raw := "text/csv" }, by rfl, by rfl⟩, by rfl, by decide⟩

lemma countChar_append (c : Char) (s t : String) :
    countChar c (s ++ t) = countChar c s + countChar c t := by
  have h : (s ++ t).toList = s.toList ++ t.toList := rfl
  simp [countChar, h, List.filter_append]

/-- The success path of one ingestion-loop iteration, shared by several
claims: a downloaded, recognised, parsed dataset with a truthy title and
a fresh slug appends exactly one table (under the slugged title) and
exactly one manifest row. -/
lemma processData_success (env : IngestEnv) (acc : DB × List ManifestRow)
    (d : Data) (content : String) (tbl : PdTable)
    (hdl : Data.download env.http d = some content)
    (hp : parseContent env d content = some (.ok tbl))
    (ht : d.title ≠ "")
    (hl : acc.1.lookup (norm_value d.title) = none) :
    processData env acc d =
      (acc.1 ++ [(norm_value d.title, .data { tbl with cols := normalise_values tbl.cols })],
       acc.2 ++ [manifestRowOfData d]) := by
  have hnv : normalise_values [d.title] = [norm_value d.title] := by
    simp [normalise_values, ht]
  simp [processData, hdl, hp, hnv, to_sql_fail, hl, manifestRowOfData]

/-- C10: the positional-variant constructor appends `?buyer_org={org}`
to the supplied url unconditionally (one more `?` than the url and org
together carry — a second `?` whenever the url already has a query
string); the keyword-based variant appends the suffix only when an
access URL is present, returning the bare download URL otherwise;
`download` fetches exactly this effective url; and the ingestion loop
records exactly this url in the appended manifest row. -/
theorem buyer_org_url_spec :
    (∀ name title desc org u ct creator cats genre size cid,
      (NData.init name title desc org u ct creator cats genre size cid).url
          = u ++ "?buyer_org=" ++ org ∧
      countChar '?' (NData.init name title desc org u ct creator cats genre size cid).url
          = countChar '?' u + 1 + countChar '?' org) ∧
    (∀ d : Data,
      (truthy d.access_url = true →
        Data.url d = some (d.access_url.getD "" ++ "?buyer_org=" ++ d.org)) ∧
      (truthy d.access_url = false → Data.url d = d.download_url)) ∧
    (∀ http d, Data.download http d = (Data.url d).bind http) ∧
    (∀ env acc d content tbl, Data.download env.http d = some content →
      parseContent env d content = some (.ok tbl) → d.title ≠ "" →
      acc.1.lookup (norm_value d.title) = none →
      (processData env acc d).2 = acc.2 ++ [manifestRowOfData d] ∧
        (manifestRowOfData d).url = d.url) := by
  refine ⟨?_, ?_, ?_, ?_⟩
  · intro name title desc org u ct creator cats genre size cid
    refine ⟨rfl, ?_⟩
    show countChar '?' (u ++ "?buyer_org=" ++ org) = _
    rw [countChar_append, countChar_append]
    have h1 : countChar '?' "?buyer_org=" = 1 := by decide
    omega
  · intro d
    constructor
    · intro h; simp [Data.url, h]
    · intro h; simp [Data.url, h]
  · intro http d
    unfold Data.download
    cases Data.url d <;> rfl
  · intro env acc d content tbl hdl hp ht hl
    rw [processData_success env acc d content tbl hdl hp ht hl]
    exact ⟨rfl, rfl⟩

/-- Witness for C10 at concrete inputs, including a url that already
carries a query string. -/
theorem buyer_org_url_spec_w :
    ((NData.init "n" "t" "d" "OrgA" "http://h/x?a=1" "csv" "c" [] "g" 0 none).url
        = "http://h/x?a=1" ++ "?buyer_org=" ++ "OrgA" ∧
      countChar '?' (NData.init "n" "t" "d" "OrgA" "http://h/x?a=1" "csv" "c" [] "g" 0 none).url
        = countChar '?' "http://h/x?a=1" + 1 + countChar '?' "OrgA") ∧
    (truthy dSales.access_url = true ∧
      Data.url dSales = some (dSales.access_url.getD "" ++ "?buyer_org=" ++ dSales.org)) :=
  ⟨(buyer_org_url_spec.1 "n" "t" "d" "OrgA" "http://h/x?a=1" "csv" "c" [] "g" 0 none),
   ⟨by decide, ((buyer_org_url_spec.2.1 dSales).1 (by decide))⟩⟩

/-! ## Claim theorems: authenticated access layer -/

/-- C2: on one top-level invocation of an `auth_retry`-wrapped method
(the `_retried` flag clear, as the `finally` clause guarantees): a
successful attempt performs no re-authentication; an attempt failing
with HTTP 401 triggers exactly one forced login and exactly one retry,
whose outcome — success, a second 401, or anything else — is returned or
raised as is with no further login or retry; a non-401 `HTTPError` and
any other exception propagate with no login and no retry; and the flag
is clear again after every invocation, so the next call may retry once
more. -/
theorem auth_retry_spec {α : Type} (login : Outcome (String × String))
    (f : Nat → Outcome α) (st : ClientState) (htop : st.retried = false) :
    (∀ a, f 0 = .ok a →
      auth_retry login f st = ⟨.ok a, { st with retried := false }, 1, 0⟩) ∧
    (∀ tr, f 0 = .httpError 401 → login = .ok tr →
      auth_retry login f st
        = ⟨f 1, { st with token := some tr.1, refresh := tr.2, retried := false }, 2, 1⟩) ∧
    (∀ s, f 0 = .httpError s → s ≠ 401 →
      auth_retry login f st = ⟨.httpError s, { st with retried := false }, 1, 0⟩) ∧
    (f 0 = .exn → auth_retry login f st = ⟨.exn, { st with retried := false }, 1, 0⟩) ∧
    (auth_retry login f st).state.retried = false := by
  refine ⟨?_, ?_, ?_, ?_, ?_⟩
  · intro a h
    simp [auth_retry, h]
  · intro tr h hl
    simp [auth_retry, h, htop, authorise, hl]
  · intro s h hs
    simp [auth_retry, h, hs]
  · intro h
    simp [auth_retry, h]
  · unfold auth_retry
    cases h : f 0 with
    | ok a => simp
    | httpError s1 =>
      by_cases h401 : s1 = 401 ∧ st.retried = false
      · simp only [if_pos h401]
        cases hAuth : authorise login true { st with retried := true } with
        | mk o rest =>
          cases o <;> simp
      · simp [if_neg h401]
    | exn => simp

/-- Witness for C2: a first attempt failing with 401, a successful
forced login, and a successful retry. -/
theorem auth_retry_spec_w :
    clientInit.retried = false ∧
    auth_retry (.ok ("tok", "ref"))
        (fun n => if n = 0 then Outcome.httpError 401 else Outcome.ok (7 : Nat)) clientInit
      = ⟨.ok 7, { clientInit with token := some "tok", refresh := "ref", retried := false },
         2, 1⟩ := by
  constructor
  · rfl
  · have h := (auth_retry_spec (.ok ("tok", "ref"))
      (fun n => if n = 0 then Outcome.httpError 401 else Outcome.ok (7 : Nat))
      clientInit rfl).2.1 ("tok", "ref") rfl rfl
    simpa using h

/-- `_authorise` never touches `_is_setup`. -/
lemma authorise_keeps_flag (login : Outcome (String × String)) (refresh : Bool)
    (st : ClientState) : (authorise login refresh st).2.1.is_setup = st.is_setup := by
  unfold authorise
  split
  · rfl
  · cases login <;> rfl

/-- `_setup` always leaves `_is_setup` set: it is assigned `True` before
anything that can fail. -/
lemma setup_leaves_flag (env : SetupEnv) (st : ClientState) :
    (setup env st).2.is_setup = true := by
  unfold setup
  rcases hA : authorise env.login false { st with is_setup := true } with ⟨o, st2, n⟩
  have h : st2.is_setup = true := by
    have h2 := authorise_keeps_flag env.login false { st with is_setup := true }
    rw [hA] at h2
    simpa using h2
  cases o with
  | ok a =>
    cases env.usersMe with
    | ok nm =>
      cases env.qapi with
      | ok q => simpa using h
      | httpError s => simpa using h
      | exn => simpa using h
    | httpError s => simpa using h
    | exn => simpa using h
  | httpError s => simpa using h
  | exn => simpa using h

/-- C3 counterexample: when the lazy first-use setup fails (here: the
login POST raises HTTP 500), the error propagates, but `_is_setup` IS
left set — `_setup` assigns it `True` as its first statement and never
rolls it back — so a later authenticated call will not retry setup. -/
theorem ensure_setup_flag_cex :
    ensure_setup ⟨.httpError 500, .exn, .exn⟩ (fun s => (Outcome.ok (0 : Nat), s)) clientInit
      = (.httpError 500, { clientInit with is_setup := true }, 1) ∧
    ({ clientInit with is_setup := true } : ClientState).is_setup = true := ⟨rfl, rfl⟩

/-- C3 (amended): when the lazy first-use setup step fails, the failure
propagates as an error to the caller of the triggering call, which does
not retry setup (exactly one `_setup` invocation); but the `_is_setup`
flag — set eagerly at the top of `_setup` so that the API calls made
during setup do not re-enter it — remains set, so a later authenticated
call skips setup instead of retrying it. -/
theorem ensure_setup_failure_spec {α : Type} (env : SetupEnv)
    (f g : ClientState → Outcome α × ClientState) (st st1 : ClientState)
    (h0 : st.is_setup = false) :
    (∀ s, setup env st = (.httpError s, st1) →
      ensure_setup env f st = (.httpError s, st1, 1) ∧ st1.is_setup = true) ∧
    (setup env st = (.exn, st1) →
      ensure_setup env f st = (.exn, st1, 1) ∧ st1.is_setup = true) ∧
    (∀ st2 : ClientState, st2.is_setup = true → (ensure_setup env g st2).2.2 = 0) := by
  refine ⟨?_, ?_, ?_⟩
  · intro s hs
    refine ⟨by simp [ensure_setup, h0, hs], ?_⟩
    have h := setup_leaves_flag env st
    rw [hs] at h
    exact h
  · intro hs
    refine ⟨by simp [ensure_setup, h0, hs], ?_⟩
    have h := setup_leaves_flag env st
    rw [hs] at h
    exact h
  · intro st2 h2
    simp [ensure_setup, h2]

/-- Witness for C3's amended theorem: a failing login during setup on a
fresh client. -/
theorem ensure_setup_failure_spec_w :
    clientInit.is_setup = false ∧
    (ensure_setup ⟨.httpError 500, .exn, .exn⟩ (fun s => (Outcome.ok (0 : Nat), s)) clientInit
        = (.httpError 500, { clientInit with is_setup := true }, 1) ∧
      ({ clientInit with is_setup := true } : ClientState).is_setup = true) ∧
    (ensure_setup ⟨.httpError 500, .exn, .exn⟩ (fun s => (Outcome.ok (0 : Nat), s))
        { clientInit with is_setup := true }).2.2 = 0 := by
  have h := ensure_setup_failure_spec ⟨.httpError 500, .exn, .exn⟩
    (fun s => (Outcome.ok (0 : Nat), s)) (fun s => (Outcome.ok (0 : Nat), s))
    clientInit { clientInit with is_setup := true } rfl
  exact ⟨rfl, h.1 500 rfl, h.2.2 _ rfl⟩

/-! ## Claim theorems: semantic index query failure -/

/-- C7: `query` on a freshly constructed, never-built `Parser` returns
the structured failure result — success flag `False`, empty chunk,
metadata and similarity lists, and a human-readable message — and, the
embedding being a total function, never raises; and a `build` pass
(`data_as_vectors`) that collects zero chunks returns early, leaving the
state untouched (explicitly unbuilt), so a subsequent `query` still
returns the same failure result. -/
theorem query_unbuilt_spec {V : Type} (tenv : TfidfEnv V) :
    (∀ text k, query tenv (parserInit V) text k = queryFailure) ∧
    (queryFailure.success = false ∧ queryFailure.chunks = [] ∧
      queryFailure.metadata = [] ∧ queryFailure.similarities = [] ∧
      queryFailure.message ≠ "") ∧
    (∀ http data cs st, (collectChunks http data cs).1 = [] →
      data_as_vectors http tenv data cs st = st) ∧
    (∀ http data cs text k, (collectChunks http data cs).1 = [] →
      query tenv (data_as_vectors http tenv data cs (parserInit V)) text k = queryFailure) := by
  have hfresh : ∀ text k, query tenv (parserInit V) text k = queryFailure := by
    intro text k
    simp [query, parserInit]
  have hempty : ∀ http data cs st, (collectChunks http data cs).1 = [] →
      data_as_vectors http tenv data cs st = st := by
    intro http data cs st h
    simp [data_as_vectors, h]
  refine ⟨hfresh, ⟨rfl, rfl, rfl, rfl, by decide⟩, hempty, ?_⟩
  intro http data cs text k h
  rw [hempty http data cs _ h]
  exact hfresh text k

/-- Witness for C7: an HTTP transport that always fails yields zero
chunks, and the query on the resulting state fails structurally. -/
theorem query_unbuilt_spec_w :
    (collectChunks (fun _ => none) [dSales] 1000).1 = [] ∧
    query tenvW (data_as_vectors (fun _ => none) tenvW [dSales] 1000 (parserInit Unit)) "q" 3
      = queryFailure :=
  ⟨rfl, (query_unbuilt_spec tenvW).2.2.2 (fun _ => none) [dSales] 1000 "q" 3 rfl⟩

/-! ## Ranking lemmas for the semantic index -/

lemma lexLt_trans {key : Nat → ℚ} {a b c : Nat} (h1 : lexLt key a b) (h2 : lexLt key b c) :
    lexLt key a c := by
  rcases h1 with h1 | ⟨e1, l1⟩ <;> rcases h2 with h2 | ⟨e2, l2⟩
  · exact Or.inl (h1.trans h2)
  · exact Or.inl (e2 ▸ h1)
  · exact Or.inl (e1 ▸ h2)
  · exact Or.inr ⟨e1.trans e2, l1.trans l2⟩

lemma lexLt_of_ne {key : Nat → ℚ} {a b : Nat} (h : a ≠ b) :
    lexLt key a b ∨ lexLt key b a := by
  rcases lt_trichotomy (key a) (key b) with h1 | h1 | h1
  · exact Or.inl (Or.inl h1)
  · rcases Nat.lt_or_ge a b with h2 | h2
    · exact Or.inl (Or.inr ⟨h1, h2⟩)
    · exact Or.inr (Or.inr ⟨h1.symm, lt_of_le_of_ne h2 (Ne.symm h)⟩)
  · exact Or.inr (Or.inl h1)

lemma insertIdx_perm (key : Nat → ℚ) (i : Nat) (l : List Nat) :
    (insertIdx key i l).Perm (i :: l) := by
  induction l with
  | nil => exact List.Perm.refl _
  | cons j rest ih =>
    by_cases h : lexLt key i j
    · rw [insertIdx, if_pos h]
    · rw [insertIdx, if_neg h]
      exact (ih.cons j).trans (List.Perm.swap i j rest)

lemma insertIdx_pairwise (key : Nat → ℚ) (i : Nat) (l : List Nat)
    (hl : l.Pairwise (lexLt key)) (hnot : i ∉ l) :
    (insertIdx key i l).Pairwise (lexLt key) := by
  induction l with
  | nil => simp [insertIdx]
  | cons j rest ih =>
    rcases List.pairwise_cons.mp hl with ⟨hj, hrest⟩
    have hij : i ≠ j := fun e => hnot (e ▸ List.mem_cons_self i rest)
    have hir : i ∉ rest := fun hmem => hnot (List.mem_cons_of_mem j hmem)
    by_cases h : lexLt key i j
    · rw [insertIdx, if_pos h]
      refine List.pairwise_cons.mpr ⟨?_, hl⟩
      intro x hx
      rcases List.mem_cons.mp hx with rfl | hx
      · exact h
      · exact lexLt_trans h (hj x hx)
    · rw [insertIdx, if_neg h]
      have hji : lexLt key j i := by
        rcases lexLt_of_ne hij with h1 | h1
        · exact absurd h1 h
        · exact h1
      refine List.pairwise_cons.mpr ⟨?_, ih hrest hir⟩
      intro x hx
      have hx' := (insertIdx_perm key i rest).mem_iff.mp hx
      rcases List.mem_cons.mp hx' with rfl | hx'
      · exact hji
      · exact hj x hx'

lemma foldr_insert_perm (key : Nat → ℚ) (l : List Nat) :
    (l.foldr (insertIdx key) []).Perm l := by
  induction l with
  | nil => exact List.Perm.refl _
  | cons a rest ih =>
    exact (insertIdx_perm key a _).trans (ih.cons a)

lemma foldr_insert_pairwise (key : Nat → ℚ) (l : List Nat) (hl : l.Nodup) :
    (l.foldr (insertIdx key) []).Pairwise (lexLt key) := by
  induction l with
  | nil => simp
  | cons a rest ih =>
    rcases List.nodup_cons.mp hl with ⟨ha, hrest⟩
    refine insertIdx_pairwise key a _ (ih hrest) ?_
    intro hmem
    exact ha ((foldr_insert_perm key rest).mem_iff.mp hmem)

lemma argsortAsc_perm (sims : List ℚ) :
    (argsortAsc sims).Perm (List.range sims.length) :=
  foldr_insert_perm _ _

lemma argsortAsc_pairwise (sims : List ℚ) :
    (argsortAsc sims).Pairwise (lexLt (fun i => sims.getD i 0)) :=
  foldr_insert_pairwise _ _ (List.nodup_range _)

lemma argsortAsc_length (sims : List ℚ) : (argsortAsc sims).length = sims.length := by
  simpa using (argsortAsc_perm sims).length_eq

lemma topIdx_pairwise (sims : List ℚ) (k : Int) :
    (topIdx sims k).Pairwise (fun i j =>
      sims.getD j 0 < sims.getD i 0 ∨ (sims.getD i 0 = sims.getD j 0 ∧ j < i)) := by
  have hs : (pySliceFrom (argsortAsc sims) (-k)).Pairwise (lexLt (fun i => sims.getD i 0)) :=
    (argsortAsc_pairwise sims).drop
  have hr := List.pairwise_reverse.mpr hs
  exact hr.imp (fun h => h.imp id (fun ⟨e, l⟩ => ⟨e.symm, l⟩))

lemma topIdx_nodup (sims : List ℚ) (k : Int) : (topIdx sims k).Nodup := by
  have h1 : (argsortAsc sims).Nodup :=
    (argsortAsc_perm sims).symm.nodup (List.nodup_range _)
  exact List.nodup_reverse.mpr ((List.drop_sublist _ _).nodup h1)

lemma topIdx_mem (sims : List ℚ) (k : Int) (i : Nat) (h : i ∈ topIdx sims k) :
    i < sims.length := by
  have h1 : i ∈ pySliceFrom (argsortAsc sims) (-k) := List.mem_reverse.mp h
  have h2 : i ∈ argsortAsc sims := (List.drop_sublist _ _).subset h1
  exact List.mem_range.mp ((argsortAsc_perm sims).mem_iff.mp h2)

lemma topIdx_length (sims : List ℚ) (k : Int) (hk : 1 ≤ k) :
    (topIdx sims k).length = min k.toNat sims.length := by
  unfold topIdx pySliceFrom
  rw [List.length_reverse, if_pos (by omega : (-k : Int) < 0), List.length_drop,
    argsortAsc_length]
  omega

lemma topIdx_all (sims : List ℚ) (k : Int) (hk : (sims.length : Int) ≤ k)
    (i : Nat) (hi : i < sims.length) : i ∈ topIdx sims k := by
  unfold topIdx pySliceFrom
  rw [List.mem_reverse]
  rcases Int.le_or_lt 0 (-k) with h0 | h0
  · have : sims.length = 0 := by omega
    omega
  · rw [if_pos h0]
    have he : (max 0 ((argsortAsc sims).length + -k)).toNat = 0 := by
      rw [argsortAsc_length]; omega
    rw [he, List.drop_zero]
    exact (argsortAsc_perm sims).mem_iff.mpr (List.mem_range.mpr hi)

/-- C6 (amended): for `k ≥ 1`, `find_matching_chunk` succeeds and selects
an index sequence of length `min k n`: similarity non-increasing, chunk,
score and metadata taken at the same original index, all `n` chunks when
`k ≥ n`, and exact similarity ties broken in favour of the HIGHER
original chunk index (the code reverses an ascending stable argsort, so
on equal keys the larger index ends up first). -/
theorem find_matching_chunk_topk {V : Type} (tenv : TfidfEnv V) (st : ParserState V)
    (qv : V) (k : Int) (vecs : List V) (chunksL : List String)
    (hv : st.vectors = some vecs) (hc : st.chunks = some chunksL)
    (hlen : chunksL.length = vecs.length) (hm : st.metadata.length = vecs.length)
    (hk : 1 ≤ k) :
    (find_matching_chunk tenv st qv k).success = true ∧
    (find_matching_chunk tenv st qv k).chunks =
      (topIdx (simsOf tenv qv vecs) k).map (fun i => chunksL.getD i "") ∧
    (find_matching_chunk tenv st qv k).metadata =
      (topIdx (simsOf tenv qv vecs) k).map (fun i => st.metadata.getD i ⟨"", none, ""⟩) ∧
    (find_matching_chunk tenv st qv k).similarities =
      (topIdx (simsOf tenv qv vecs) k).map (fun i => (simsOf tenv qv vecs).getD i 0) ∧
    (topIdx (simsOf tenv qv vecs) k).length = min k.toNat vecs.length ∧
    (∀ i ∈ topIdx (simsOf tenv qv vecs) k,
      i < vecs.length ∧ i < chunksL.length ∧ i < st.metadata.length) ∧
    (topIdx (simsOf tenv qv vecs) k).Nodup ∧
    (topIdx (simsOf tenv qv vecs) k).Pairwise (fun i j =>
      (simsOf tenv qv vecs).getD j 0 < (simsOf tenv qv vecs).getD i 0 ∨
        ((simsOf tenv qv vecs).getD i 0 = (simsOf tenv qv vecs).getD j 0 ∧ j < i)) ∧
    ((vecs.length : Int) ≤ k → ∀ i, i < vecs.length → i ∈ topIdx (simsOf tenv qv vecs) k) ∧
    (find_matching_chunk tenv st qv k).similarities.Pairwise (· ≥ ·) := by
  have hsims : (simsOf tenv qv vecs).length = vecs.length := by
    simp [simsOf]
  have hrfl : find_matching_chunk tenv st qv k =
      { chunks := (topIdx (simsOf tenv qv vecs) k).map (fun i => (st.chunks.getD []).getD i "")
        metadata := (topIdx (simsOf tenv qv vecs) k).map
          (fun i => st.metadata.getD i ⟨"", none, ""⟩)
        similarities := (topIdx (simsOf tenv qv vecs) k).map
          (fun i => (simsOf tenv qv vecs).getD i 0)
        success := true
        message := "" } := by
    rw [find_matching_chunk, hv]
  refine ⟨by rw [hrfl], by rw [hrfl, hc]; rfl, by rw [hrfl], by rw [hrfl], ?_, ?_, ?_, ?_, ?_, ?_⟩
  · rw [topIdx_length _ _ hk, hsims]
  · intro i hi
    have := topIdx_mem _ _ _ hi
    rw [hsims] at this
    exact ⟨this, by omega, by omega⟩
  · exact topIdx_nodup _ _
  · exact topIdx_pairwise _ _
  · intro hle i hi
    exact topIdx_all _ _ (by rw [hsims]; exact hle) i (by rwa [hsims])
  · rw [hrfl]
    simp only [List.pairwise_map]
    exact (topIdx_pairwise _ _).imp (fun h => by
      rcases h with h | ⟨e, _⟩
      · exact le_of_lt h
      · exact le_of_eq e.symm)

/-- A built three-chunk state used as the C6 witness. -/
def stW : ParserState ℚ :=
  { vectorizer := some (fun _ => 1), vectors := some [1, 3, 2]
    chunks := some ["a", "b", "c"]
    metadata := [⟨"ma", none, ""⟩, ⟨"mb", none, ""⟩, ⟨"mc", none, ""⟩] }

/-- An sklearn environment over `ℚ` whose cosine returns the stored
vector itself, making similarity scores explicit. -/
def tenvQ : TfidfEnv ℚ :=
  { fit_transform := fun cs => (fun _ => 0, cs.map (fun _ => 0))
    cosine := fun _ v => v }

/-- Witness for C6's amended theorem on a three-chunk index with `k = 2`. -/
theorem find_matching_chunk_topk_w :
    (stW.vectors = some [1, 3, 2] ∧ stW.chunks = some ["a", "b", "c"] ∧
      (1 : Int) ≤ 2) ∧
    (find_matching_chunk tenvQ stW 0 2).success = true ∧
    (find_matching_chunk tenvQ stW 0 2).chunks = ["b", "c"] ∧
    (find_matching_chunk tenvQ stW 0 2).similarities = [3, 2] ∧
    (topIdx (simsOf tenvQ 0 [1, 3, 2]) 2).length = min (2 : Int).toNat 3 := by
  have h := find_matching_chunk_topk tenvQ stW 0 2 [1, 3, 2] ["a", "b", "c"]
    rfl rfl rfl rfl (by decide)
  exact ⟨⟨rfl, rfl, by decide⟩, h.1, by decide, by decide, by simpa using h.2.2.2.2.1⟩

/-- A built two-chunk state whose similarities tie exactly. -/
def stTie : ParserState ℚ :=
  { vectorizer := some (fun _ => 1), vectors := some [0, 0]
    chunks := some ["a", "b"]
    metadata := [⟨"m0", none, ""⟩, ⟨"m1", none, ""⟩] }

/-- C6 counterexample: on an exact similarity tie the chunk with the
HIGHER original index comes first (`["b", "a"]`, not `["a", "b"]` as the
claim's lower-index tie-break would demand), and `k = 0` returns all
chunks rather than at most `0` (Python's `[-0:]` slice is the whole
list). -/
theorem find_matching_chunk_cex :
    (find_matching_chunk tenvQ stTie 0 2).similarities = [0, 0] ∧
    (find_matching_chunk tenvQ stTie 0 2).chunks = ["b", "a"] ∧
    (find_matching_chunk tenvQ stTie 0 0).chunks.length = 2 := by
  refine ⟨by decide, by decide, by decide⟩

/-! ## Ingestion-run lemmas -/

lemma lookup_isSome_iff (db : DB) (nm : String) :
    (db.lookup nm).isSome = true ↔ nm ∈ db.map Prod.fst := by
  induction db with
  | nil => simp [List.lookup]
  | cons e rest ih =>
    obtain ⟨a, b⟩ := e
    by_cases h : nm = a
    · subst h; simp [List.lookup]
    · have hb : (nm == a) = false := by simp [h]
      simp only [List.lookup, hb, List.map_cons]
      rw [ih]
      simp [h]

lemma lookup_eq_none_iff (db : DB) (nm : String) :
    db.lookup nm = none ↔ nm ∉ db.map Prod.fst := by
  rw [← lookup_isSome_iff]
  cases h : db.lookup nm <;> simp

lemma lookup_append_left_none (l₁ l₂ : DB) (nm : String) (h : l₁.lookup nm = none) :
    (l₁ ++ l₂).lookup nm = l₂.lookup nm := by
  induction l₁ with
  | nil => rfl
  | cons e rest ih =>
    obtain ⟨a, b⟩ := e
    by_cases hn : nm = a
    · subst hn; simp [List.lookup] at h
    · have hb : (nm == a) = false := by simp [hn]
      simp only [List.cons_append, List.lookup, hb] at h ⊢
      exact ih h

lemma normalise_singleton (t : String) :
    normalise_values [t] = if t = "" then [] else [norm_value t] := by
  by_cases h : t = "" <;> simp [normalise_values, h]

lemma itemIngestOk_iff (env : IngestEnv) (names : List String) (d : Data) :
    itemIngestOk env names d = true ↔
      ∃ content tbl, Data.download env.http d = some content ∧
        parseContent env d content = some (.ok tbl) ∧ d.title ≠ "" ∧
        norm_value d.title ∉ names := by
  unfold itemIngestOk
  cases hdl : Data.download env.http d with
  | none => simp
  | some content =>
    cases hp : parseContent env d content with
    | none => simp [hp]
    | some res =>
      cases res with
      | error e => simp [hp]
      | ok tbl =>
        rw [normalise_singleton]
        by_cases ht : d.title = ""
        · simp [ht, hp]
        · simp [ht, hp, List.elem_iff]

lemma itemSkipped_false_iff (env : IngestEnv) (d : Data) :
    itemSkipped env d = false ↔
      ∃ content tbl, Data.download env.http d = some content ∧
        parseContent env d content = some (.ok tbl) := by
  unfold itemSkipped
  cases hdl : Data.download env.http d with
  | none => simp
  | some content =>
    cases hp : parseContent env d content with
    | none => simp [hp]
    | some res =>
      cases res with
      | error e => simp [hp]
      | ok tbl => simp [hp]

lemma ingestedTableVal_eq (env : IngestEnv) (d : Data) (content : String) (tbl : PdTable)
    (hdl : Data.download env.http d = some content)
    (hp : parseContent env d content = some (.ok tbl)) (ht : d.title ≠ "") :
    ingestedTableVal env d
      = some (norm_value d.title, .data { tbl with cols := normalise_values tbl.cols }) := by
  simp [ingestedTableVal, hdl, hp, normalise_singleton, ht]

lemma processData_skip (env : IngestEnv) (db0 : DB) (rows0 : List ManifestRow) (d : Data)
    (h : itemIngestOk env (db0.map Prod.fst) d = false) :
    processData env (db0, rows0) d = (db0, rows0) := by
  rcases hdl : Data.download env.http d with _ | content
  · simp [processData, hdl]
  · rcases hp : parseContent env d content with _ | res
    · simp [processData, hdl, hp]
    · rcases res with e | tbl
      · simp [processData, hdl, hp]
      · by_cases ht : d.title = ""
        · simp [processData, hdl, hp, normalise_singleton, ht]
        · have hmem : norm_value d.title ∈ db0.map Prod.fst := by
            by_contra hmem
            have hok : itemIngestOk env (db0.map Prod.fst) d = true :=
              (itemIngestOk_iff env _ d).mpr ⟨content, tbl, hdl, hp, ht, hmem⟩
            rw [hok] at h
            exact absurd h (by simp)
          have hsome : (db0.lookup (norm_value d.title)).isSome = true :=
            (lookup_isSome_iff db0 _).mpr hmem
          simp [processData, hdl, hp, normalise_singleton, ht, to_sql_fail, hsome]

/-- The ingestion loop, stated against the straight-line
characterisation `ingestedAux`: each ingested dataset appends its table
and its manifest row, in loop order. -/
lemma foldl_processData (env : IngestEnv) :
    ∀ (data : List Data) (db0 : DB) (rows0 : List ManifestRow),
    data.foldl (processData env) (db0, rows0) =
      (db0 ++ (ingestedAux env (db0.map Prod.fst) data).filterMap (ingestedTableVal env),
       rows0 ++ (ingestedAux env (db0.map Prod.fst) data).map manifestRowOfData) := by
  intro data
  induction data with
  | nil => intro db0 rows0; simp [ingestedAux]
  | cons d ds ih =>
    intro db0 rows0
    rw [List.foldl_cons]
    by_cases h : itemIngestOk env (db0.map Prod.fst) d = true
    · obtain ⟨content, tbl, hdl, hp, ht, hmem⟩ := (itemIngestOk_iff env _ d).mp h
      have hnone : db0.lookup (norm_value d.title) = none :=
        (lookup_eq_none_iff db0 _).mpr hmem
      rw [processData_success env (db0, rows0) d content tbl hdl hp ht hnone, ih]
      have hitv := ingestedTableVal_eq env d content tbl hdl hp ht
      have hmap : (db0 ++ [(norm_value d.title,
          TableVal.data { tbl with cols := normalise_values tbl.cols })]).map Prod.fst
          = db0.map Prod.fst ++ [norm_value d.title] := by simp
      rw [hmap]
      have haux : ingestedAux env (db0.map Prod.fst) (d :: ds)
          = d :: ingestedAux env (db0.map Prod.fst ++ [norm_value d.title]) ds := by
        rw [ingestedAux, if_pos h, normalise_singleton, if_neg ht]
      rw [haux]
      simp [hitv, List.filterMap_cons]
    · have hfalse : itemIngestOk env (db0.map Prod.fst) d = false := by
        cases hb : itemIngestOk env (db0.map Prod.fst) d
        · rfl
        · exact absurd hb h
      rw [processData_skip env db0 rows0 d hfalse, ih]
      have haux : ingestedAux env (db0.map Prod.fst) (d :: ds)
          = ingestedAux env (db0.map Prod.fst) ds := by
        rw [ingestedAux, if_neg (by rw [hfalse]; exact Bool.false_ne_true)]
      rw [haux]

lemma lookup_some_mem (db : DB) (nm : String) (v : TableVal)
    (h : db.lookup nm = some v) : (nm, v) ∈ db := by
  induction db with
  | nil => simp [List.lookup] at h
  | cons e rest ih =>
    obtain ⟨a, b⟩ := e
    by_cases hn : nm = a
    · subst hn
      simp [List.lookup] at h
      simp [h]
    · have hb : (nm == a) = false := by simp [hn]
      simp only [List.lookup, hb] at h
      exact List.mem_cons_of_mem _ (ih h)

/-- No manifest-kind table is present (true of every store before the
final manifest write: dataset tables are `.data`, chunk tables `.chunk`). -/
def noManifest (db : DB) : Prop :=
  ∀ e ∈ db, ∀ c r, e.2 ≠ TableVal.manifest c r

lemma appendTables_nonmanifest {old t m : TableVal}
    (h : appendTables old t = some m) (ht : ∀ c r, t ≠ TableVal.manifest c r) :
    ∀ c r, m ≠ TableVal.manifest c r := by
  cases old with
  | data t1 =>
    cases t with
    | data t2 =>
      simp only [appendTables] at h
      by_cases hc : t1.cols = t2.cols
      · rw [if_pos hc] at h
        obtain rfl : TableVal.data ⟨t1.cols, t1.nrows + t2.nrows⟩ = m := by simpa using h
        simp
      · rw [if_neg hc] at h
        simp at h
    | chunk r2 => simp [appendTables] at h
    | manifest c2 r2 => exact absurd rfl (ht _ _)
  | chunk r1 =>
    cases t with
    | data t2 => simp [appendTables] at h
    | chunk r2 =>
      obtain rfl : TableVal.chunk (r1 ++ r2) = m := by simpa [appendTables] using h
      simp
    | manifest c2 r2 => exact absurd rfl (ht _ _)
  | manifest c1 r1 =>
    cases t with
    | data t2 => simp [appendTables] at h
    | chunk r2 => simp [appendTables] at h
    | manifest c2 r2 => exact absurd rfl (ht _ _)

lemma to_sql_preserves_noManifest {ifx : IfExists} {db db' : DB} {nm : String}
    {t : TableVal} (h : to_sql ifx db nm t = .ok db')
    (ht : ∀ c r, t ≠ TableVal.manifest c r) (hdb : noManifest db) : noManifest db' := by
  unfold to_sql at h
  rcases hl : db.lookup nm with _ | old <;> simp only [hl] at h
  · obtain rfl : db ++ [(nm, t)] = db' := by simpa using h
    intro e he
    rcases List.mem_append.mp he with he | he
    · exact hdb e he
    · simp at he
      subst he
      exact ht
  · cases ifx with
    | fail => simp at h
    | replace =>
      obtain rfl : db.filter (fun e => e.1 ≠ nm) ++ [(nm, t)] = db' := by simpa using h
      intro e he
      rcases List.mem_append.mp he with he | he
      · exact hdb e (List.mem_of_mem_filter he)
      · simp at he
        subst he
        exact ht
    | append =>
      rcases hap : appendTables old t with _ | merged <;> simp only [hap] at h
      · simp at h
      · obtain rfl : db.map (fun e => if e.1 = nm then (nm, merged) else e) = db' := by
          simpa using h
        intro e he
        rcases List.mem_map.mp he with ⟨e0, he0, heq⟩
        by_cases hcase : e0.1 = nm
        · rw [if_pos hcase] at heq
          subst heq
          exact appendTables_nonmanifest hap ht
        · rw [if_neg hcase] at heq
          subst heq
          exact hdb e0 he0

lemma addInfoStep_ok {ifx : IfExists} {vr : VectorResult}
    {acc out : DB × List ManifestRow} {i : Nat}
    (h : addInfoStep ifx vr acc i = .ok out) :
    ∃ meta, vr.metadata.get? i = some meta ∧
      out.2 = acc.2 ++ [manifestRowOfMeta meta] ∧
      (noManifest acc.1 → noManifest out.1) := by
  unfold addInfoStep at h
  rcases hm : vr.metadata.get? i with _ | meta <;> simp only [hm] at h
  · simp at h
  · rcases hts : to_sql ifx acc.1 (replaceChar ' ' '_' meta.title)
        (.chunk [(vr.chunks.getD i "", meta.title, meta.url)]) with e | db2 <;>
      simp only [hts] at h
    · simp at h
    · obtain rfl : (db2, acc.2 ++ [⟨meta.title, meta.url, replaceChar ' ' '_' meta.title,
          meta.description⟩]) = out := by simpa using h
      refine ⟨meta, rfl, rfl, ?_⟩
      intro hnm
      exact to_sql_preserves_noManifest hts (by simp) hnm

lemma addInfoLoop_ok {ifx : IfExists} {vr : VectorResult} :
    ∀ (idx : List Nat) (acc out : DB × List ManifestRow),
    addInfoLoop ifx vr idx acc = .ok out →
    out.2 = acc.2 ++ idx.filterMap (fun i => (vr.metadata.get? i).map manifestRowOfMeta) ∧
    (∀ i ∈ idx, (vr.metadata.get? i).isSome = true) ∧
    (noManifest acc.1 → noManifest out.1) := by
  intro idx
  induction idx with
  | nil =>
    intro acc out h
    obtain rfl : acc = out := by simpa [addInfoLoop] using h
    simp
  | cons i rest ih =>
    intro acc out h
    unfold addInfoLoop at h
    rcases hstep : addInfoStep ifx vr acc i with e | acc2 <;> simp only [hstep] at h
    · simp at h
    · obtain ⟨meta, hm, hrows, hpres⟩ := addInfoStep_ok hstep
      obtain ⟨hrows2, hsome2, hpres2⟩ := ih acc2 out h
      refine ⟨?_, ?_, ?_⟩
      · rw [hrows2, hrows, List.filterMap_cons, hm]
        simp
      · intro j hj
        rcases List.mem_cons.mp hj with rfl | hj
        · rw [hm]
          rfl
        · exact hsome2 j hj
      · intro hnm
        exact hpres2 (hpres hnm)

lemma le_length_of_range_isSome (l : List Metadata) (n : Nat)
    (h : ∀ i ∈ List.range n, (l.get? i).isSome = true) : n ≤ l.length := by
  by_contra hlt
  push_neg at hlt
  have hmem := h l.length (List.mem_range.mpr hlt)
  rw [List.get?_eq_none.mpr (le_refl _)] at hmem
  simp at hmem

lemma range_filterMap_take {β : Type} (l : List Metadata) (f : Metadata → β) :
    ∀ n, n ≤ l.length →
    (List.range n).filterMap (fun i => (l.get? i).map f) = (l.take n).map f := by
  intro n
  induction n with
  | zero => simp
  | succ m ih =>
    intro h
    have hm : m < l.length := by omega
    rw [List.range_succ, List.filterMap_append, ih (by omega)]
    have hsing : List.filterMap (fun i => (l.get? i).map f) [m] = [f l[m]] := by
      simp [List.get?_eq_get hm, List.getElem?_eq_getElem hm]
    rw [hsing, List.take_succ]
    simp only [List.getElem?_map, List.getElem?_eq_getElem hm]
    rw [List.map_append]
    rfl

lemma length_filter_not (p : Data → Bool) (l : List Data) :
    (l.filter (fun d => !(p d))).length = l.length - (l.filter p).length := by
  induction l with
  | nil => rfl
  | cons d rest ih =>
    have hle := List.length_filter_le p rest
    cases h : p d <;> (simp [List.filter_cons, h, ih]; try omega)

lemma length_filterMap_of_isSome {α β : Type} (f : α → Option β) :
    ∀ (l : List α), (∀ a ∈ l, (f a).isSome = true) → (l.filterMap f).length = l.length := by
  intro l
  induction l with
  | nil => intro _; rfl
  | cons a rest ih =>
    intro h
    have ha := h a (List.mem_cons_self a rest)
    rcases hf : f a with _ | b
    · rw [hf] at ha; simp at ha
    · rw [List.filterMap_cons, hf]
      simp only [List.length_cons]
      rw [ih (fun x hx => h x (List.mem_cons_of_mem a hx))]

lemma itv_some_shape (env : IngestEnv) (d : Data) (tname : String) (tv : TableVal)
    (h : ingestedTableVal env d = some (tname, tv)) :
    tname = norm_value d.title ∧ isDataTable tv = true ∧ d.title ≠ "" := by
  unfold ingestedTableVal at h
  rcases hdl : Data.download env.http d with _ | content <;> simp only [hdl] at h
  · simp at h
  · rcases hp : parseContent env d content with _ | res <;> simp only [hp] at h
    · simp at h
    · rcases res with e | tbl
      · simp at h
      · rw [normalise_singleton] at h
        by_cases ht : d.title = ""
        · rw [if_pos ht] at h; simp at h
        · rw [if_neg ht] at h
          simp only [Option.some.injEq, Prod.mk.injEq] at h
          exact ⟨h.1.symm, by rw [← h.2]; rfl, ht⟩

lemma ingestedAux_itv_isSome (env : IngestEnv) :
    ∀ (data : List Data) (names : List String) (d : Data),
    d ∈ ingestedAux env names data → (ingestedTableVal env d).isSome = true := by
  intro data
  induction data with
  | nil => intro names d hd; simp [ingestedAux] at hd
  | cons d0 ds ih =>
    intro names d hd
    by_cases h : itemIngestOk env names d0 = true
    · rw [ingestedAux, if_pos h] at hd
      rcases List.mem_cons.mp hd with rfl | hmem
      · obtain ⟨content, tbl, hdl, hp, ht, _⟩ := (itemIngestOk_iff env names d).mp h
        rw [ingestedTableVal_eq env d content tbl hdl hp ht]
        rfl
      · exact ih _ d hmem
    · rw [ingestedAux, if_neg (by simpa using h)] at hd
      exact ih _ d hd

lemma ingestedAux_eq_filter (env : IngestEnv) :
    ∀ (data : List Data) (names : List String),
    (∀ d ∈ data, itemSkipped env d = false → d.title ≠ "") →
    ((data.filter (fun d => !(itemSkipped env d))).map
      (fun d => norm_value d.title)).Pairwise (· ≠ ·) →
    (∀ d ∈ data, itemSkipped env d = false → norm_value d.title ∉ names) →
    ingestedAux env names data = data.filter (fun d => !(itemSkipped env d)) := by
  intro data
  induction data with
  | nil => intro names _ _ _; simp [ingestedAux]
  | cons d ds ih =>
    intro names h1 h2 h3
    cases hsk : itemSkipped env d with
    | true =>
      have hok : itemIngestOk env names d = false := by
        cases hb : itemIngestOk env names d
        · rfl
        · obtain ⟨c, t, hdl, hp, _, _⟩ := (itemIngestOk_iff env names d).mp hb
          have hf : itemSkipped env d = false := (itemSkipped_false_iff env d).mpr ⟨c, t, hdl, hp⟩
          rw [hsk] at hf
          exact absurd hf (by simp)
      have hfc : (d :: ds).filter (fun d => !(itemSkipped env d))
          = ds.filter (fun d => !(itemSkipped env d)) := by
        rw [List.filter_cons, hsk]
        simp
      rw [ingestedAux, if_neg (by simpa using hok), hfc]
      rw [hfc] at h2
      exact ih names (fun x hx => h1 x (List.mem_cons_of_mem d hx)) h2
        (fun x hx => h3 x (List.mem_cons_of_mem d hx))
    | false =>
      have ht : d.title ≠ "" := h1 d (List.mem_cons_self d ds) hsk
      have hnm : norm_value d.title ∉ names := h3 d (List.mem_cons_self d ds) hsk
      obtain ⟨c, t, hdl, hp⟩ := (itemSkipped_false_iff env d).mp hsk
      have hok : itemIngestOk env names d = true :=
        (itemIngestOk_iff env names d).mpr ⟨c, t, hdl, hp, ht, hnm⟩
      have hfc : (d :: ds).filter (fun d => !(itemSkipped env d))
          = d :: ds.filter (fun d => !(itemSkipped env d)) := by
        rw [List.filter_cons, hsk]
        simp
      rw [ingestedAux, if_pos hok, normalise_singleton, if_neg ht, hfc]
      rw [hfc] at h2
      simp only [List.map_cons, List.pairwise_cons] at h2
      congr 1
      apply ih (names ++ [norm_value d.title])
        (fun x hx => h1 x (List.mem_cons_of_mem d hx)) h2.2
      intro x hx hskx
      rw [List.mem_append]
      push_neg
      refine ⟨h3 x (List.mem_cons_of_mem d hx) hskx, ?_⟩
      simp only [List.mem_singleton]
      intro heq
      have hx2 : norm_value x.title ∈ (ds.filter (fun d => !(itemSkipped env d))).map
          (fun d => norm_value d.title) := by
        refine List.mem_map.mpr ⟨x, ?_, rfl⟩
        rw [List.mem_filter]
        exact ⟨hx, by simp [hskx]⟩
      exact h2.1 _ hx2 heq.symm

/-! ## Claim theorems: tabular ingestion -/

/-- C5 (amended): a successfully ingested CSV-typed descriptor with a
truthy title and a fresh slug creates exactly one new table, named by
the full slug of the title (lowercase, with spaces, dots, dashes and
parentheses replaced by underscore — the same rule applied to the column
names), and appends exactly one manifest row; but the row's
`table_name` field is `title.replace(" ", "_")` — spaces only, case and
punctuation preserved — which equals the actual table name only when the
title is already lowercase and free of dots, dashes and parentheses. -/
theorem csv_ingest_round_trip (env : IngestEnv) (acc : DB × List ManifestRow)
    (d : Data) (content : String) (tbl : PdTable)
    (hdl : Data.download env.http d = some content)
    (hct : Data.content_type d = "csv")
    (hcsv : env.read_csv content = .ok tbl)
    (ht : d.title ≠ "")
    (hfresh : acc.1.lookup (norm_value d.title) = none) :
    processData env acc d =
      (acc.1 ++ [(norm_value d.title, .data { tbl with cols := normalise_values tbl.cols })],
       acc.2 ++ [⟨d.title, d.url, replaceChar ' ' '_' d.title, d.description⟩]) := by
  have hp : parseContent env d content = some (.ok tbl) := by
    simp [parseContent, hct, hcsv]
  have h := processData_success env acc d content tbl hdl hp ht hfresh
  simpa [manifestRowOfData] using h

/-- Witness for C5's amended theorem on a lowercase one-word title. -/
theorem csv_ingest_round_trip_w :
    (Data.download envFix.http dLower = some "id\n1" ∧
      Data.content_type dLower = "csv" ∧
      envFix.read_csv "id\n1" = .ok ⟨["id"], 1⟩ ∧
      dLower.title ≠ "" ∧
      (([], []) : DB × List ManifestRow).1.lookup (norm_value dLower.title) = none) ∧
    processData envFix ([], []) dLower =
      ([(norm_value dLower.title, .data ⟨normalise_values ["id"], 1⟩)],
       [⟨dLower.title, dLower.url, replaceChar ' ' '_' dLower.title, dLower.description⟩]) :=
  ⟨⟨rfl, rfl, rfl, by decide, rfl⟩,
   csv_ingest_round_trip envFix ([], []) dLower "id\n1" ⟨["id"], 1⟩ rfl rfl rfl (by decide) rfl⟩

/-- C5 counterexample: ingesting a CSV descriptor titled `Sales` creates
the table `sales` (slugged, lowercase) but appends a manifest row whose
`table_name` is `Sales` — not the slugged table name the claim
requires. -/
theorem csv_manifest_table_name_cex :
    data_as_db envFix [dSales] none .replace =
      .ok [("sales", .data ⟨["id"], 1⟩),
           ("nyx_subscriptions", .manifest manifestColumns
             [⟨"Sales", some "http://x?buyer_org=o", "Sales", "desc"⟩])] ∧
    norm_value dSales.title = "sales" ∧
    ("Sales" : String) ≠ "sales" := by
  exact ⟨rfl, rfl, by decide⟩

/-- C1 (amended): when every non-skipped descriptor has a truthy title,
the slugs of the non-skipped descriptors are pairwise distinct, and none
of those slugs is `nyx_subscriptions` (otherwise a duplicate table write
fails and that dataset is silently skipped too, or the manifest replaces
the colliding table): `data_as_db` completes without raising and the
store holds exactly `N - M` data tables and a manifest with exactly
`N - M` rows, where `M` counts the descriptors that failed to download,
carried an unsupported content type, or failed to parse. -/
theorem data_as_db_partial_failure (env : IngestEnv) (data : List Data)
    (h1 : ∀ d ∈ data, itemSkipped env d = false → d.title ≠ "")
    (h2 : ((data.filter (fun d => !(itemSkipped env d))).map
        (fun d => norm_value d.title)).Pairwise (· ≠ ·))
    (h3 : ∀ d ∈ data, itemSkipped env d = false →
        norm_value d.title ≠ "nyx_subscriptions") :
    ∃ db, data_as_db env data none .replace = .ok db ∧
      (db.filter (fun e => isDataTable e.2)).length
        = data.length - (data.filter (fun d => itemSkipped env d)).length ∧
      (manifestRowsOf db).length
        = data.length - (data.filter (fun d => itemSkipped env d)).length := by
  by_cases hempty : data.length = 0
  · have hd : data = [] := List.length_eq_zero.mp hempty
    subst hd
    exact ⟨[], rfl, rfl, rfl⟩
  · have hing : ingestedData env data = data.filter (fun d => !(itemSkipped env d)) := by
      unfold ingestedData
      exact ingestedAux_eq_filter env data [] h1 h2 (fun d hd hs => by simp)
    have hfold := foldl_processData env data [] []
    have hcount : (data.filter (fun d => !(itemSkipped env d))).length
        = data.length - (data.filter (fun d => itemSkipped env d)).length :=
      length_filter_not _ data
    have hall : ∀ d ∈ ingestedData env data, (ingestedTableVal env d).isSome = true :=
      fun d hd => ingestedAux_itv_isSome env data [] d hd
    have hlenT : ((ingestedData env data).filterMap (ingestedTableVal env)).length
        = (ingestedData env data).length :=
      length_filterMap_of_isSome _ _ hall
    have hent : ∀ e ∈ (ingestedData env data).filterMap (ingestedTableVal env),
        isDataTable e.2 = true ∧ e.1 ≠ "nyx_subscriptions" := by
      intro e he
      obtain ⟨d, hd, hsome⟩ := List.mem_filterMap.mp he
      obtain ⟨hname, hdata, ht⟩ := itv_some_shape env d e.1 e.2 (by rw [hsome, Prod.mk.eta])
      refine ⟨hdata, ?_⟩
      rw [hname]
      have hdmem : d ∈ data.filter (fun d => !(itemSkipped env d)) := by rw [← hing]; exact hd
      obtain ⟨hdin, hsk⟩ := List.mem_filter.mp hdmem
      exact h3 d hdin (by simpa using hsk)
    have hstep : data_as_db env data none .replace =
        (if 0 < ((ingestedData env data).map manifestRowOfData).length then
          to_sql .replace ((ingestedData env data).filterMap (ingestedTableVal env))
            "nyx_subscriptions"
            (.manifest manifestColumns ((ingestedData env data).map manifestRowOfData))
        else .ok ((ingestedData env data).filterMap (ingestedTableVal env))) := by
      unfold data_as_db
      rw [if_neg hempty]
      simp only [hfold, List.map_nil, List.nil_append]
      rfl
    by_cases hs0 : ingestedData env data = []
    · refine ⟨[], ?_, ?_, ?_⟩
      · rw [hstep, hs0]
        simp
      · rw [← hcount, ← hing, hs0]
        rfl
      · rw [← hcount, ← hing, hs0]
        rfl
    · have hpos : 0 < ((ingestedData env data).map manifestRowOfData).length := by
        simp [List.length_map]
        exact List.length_pos.mpr hs0
      have hnone : ((ingestedData env data).filterMap
          (ingestedTableVal env)).lookup "nyx_subscriptions" = none := by
        rw [lookup_eq_none_iff]
        intro hmem
        obtain ⟨e, he, heq⟩ := List.mem_map.mp hmem
        exact (hent e he).2 heq
      refine ⟨(ingestedData env data).filterMap (ingestedTableVal env) ++
          [("nyx_subscriptions",
            .manifest manifestColumns ((ingestedData env data).map manifestRowOfData))],
        ?_, ?_, ?_⟩
      · rw [hstep, if_pos hpos]
        unfold to_sql
        rw [hnone]
      · rw [List.filter_append]
        have hfe : ((ingestedData env data).filterMap (ingestedTableVal env)).filter
            (fun e => isDataTable e.2) = (ingestedData env data).filterMap (ingestedTableVal env) :=
          List.filter_eq_self.mpr (fun e he => (hent e he).1)
        rw [hfe]
        simp only [List.filter_cons, List.filter_nil]
        rw [show (isDataTable (TableVal.manifest manifestColumns
            ((ingestedData env data).map manifestRowOfData))) = false from rfl]
        simp only [Bool.false_eq_true, if_false, List.append_nil]
        rw [hlenT, ← hcount, hing]
      · unfold manifestRowsOf
        rw [lookup_append_left_none _ _ _ hnone]
        simp only [List.lookup]
        rw [show (("nyx_subscriptions" : String) == "nyx_subscriptions") = true from by simp]
        simp only [List.length_map]
        rw [← hcount, hing]

/-- C1 counterexample: (a) two well-formed CSV descriptors with the same
title — neither fails to download, parse, or carry an unsupported type
(`M = 0`), yet only one data table is created, because the second
`to_sql` hits the existing table under pandas' default
`if_exists="fail"` and the dataset is silently skipped; (b) one
descriptor whose slug is `nyx_subscriptions`: its data table is
replaced by the manifest, leaving `0` data tables instead of `1`. -/
theorem data_as_db_partial_failure_cex :
    (([dLower, dLower].filter (fun d => itemSkipped envFix d)).length = 0 ∧
      data_as_db envFix [dLower, dLower] none .replace =
        .ok [("a", .data ⟨["id"], 1⟩),
             ("nyx_subscriptions", .manifest manifestColumns
               [⟨"a", some "http://x?buyer_org=o", "a", "desc"⟩])] ∧
      ([(("a" : String), TableVal.data ⟨["id"], 1⟩),
        ("nyx_subscriptions", TableVal.manifest manifestColumns
          [⟨"a", some "http://x?buyer_org=o", "a", "desc"⟩])].filter
            (fun e => isDataTable e.2)).length = 1 ∧
      (1 : Nat) ≠ 2 - 0) ∧
    (([dNyx].filter (fun d => itemSkipped envFix d)).length = 0 ∧
      data_as_db envFix [dNyx] none .replace =
        .ok [("nyx_subscriptions", .manifest manifestColumns
          [⟨"Nyx Subscriptions", some "http://x?buyer_org=o", "Nyx_Subscriptions", "desc"⟩])] ∧
      ([(("nyx_subscriptions" : String), TableVal.manifest manifestColumns
          [⟨"Nyx Subscriptions", some "http://x?buyer_org=o", "Nyx_Subscriptions",
            "desc"⟩])].filter (fun e => isDataTable e.2)).length = 0 ∧
      (0 : Nat) ≠ 1 - 0) := by
  exact ⟨⟨rfl, rfl, rfl, by decide⟩, ⟨rfl, rfl, rfl, by decide⟩⟩

/-- A descriptor with an unsupported content type (skipped by the
ingestion loop). -/
def dTxt : Data :=
  { title := "Notes", access_url := some "http://y", download_url := none
    org := "o", size := 0, creator := none, name := "n"
    description := "nd", ct_raw := "txt" }

/-- Witness for C1's amended theorem: two descriptors of which one
carries an unsupported content type (`N = 2`, `M = 1`): one data table
and one manifest row result. -/
theorem data_as_db_partial_failure_w :
    ((∀ d ∈ [dSales, dTxt], itemSkipped envFix d = false → d.title ≠ "") ∧
      (([dSales, dTxt].filter (fun d => !(itemSkipped envFix d))).map
        (fun d => norm_value d.title)).Pairwise (· ≠ ·) ∧
      (∀ d ∈ [dSales, dTxt], itemSkipped envFix d = false →
        norm_value d.title ≠ "nyx_subscriptions")) ∧
    (∃ db, data_as_db envFix [dSales, dTxt] none .replace = .ok db ∧
      (db.filter (fun e => isDataTable e.2)).length
        = [dSales, dTxt].length - ([dSales, dTxt].filter (fun d => itemSkipped envFix d)).length ∧
      (manifestRowsOf db).length
        = [dSales, dTxt].length - ([dSales, dTxt].filter (fun d => itemSkipped envFix d)).length) :=
  ⟨⟨by decide, by decide, by decide⟩,
   data_as_db_partial_failure envFix [dSales, dTxt] (by decide) (by decide) (by decide)⟩

lemma manifest_write_lookup {ifx : IfExists} {db0 db' : DB} {rows : List ManifestRow}
    (h : to_sql ifx db0 "nyx_subscriptions" (.manifest manifestColumns rows) = .ok db')
    (hnm : noManifest db0) :
    db'.lookup "nyx_subscriptions" = some (.manifest manifestColumns rows) := by
  unfold to_sql at h
  rcases hl : db0.lookup "nyx_subscriptions" with _ | old <;> simp only [hl] at h
  · obtain rfl : db0 ++ [("nyx_subscriptions", .manifest manifestColumns rows)] = db' := by
      simpa using h
    rw [lookup_append_left_none _ _ _ hl]
    simp [List.lookup]
  · cases ifx with
    | fail => simp at h
    | replace =>
      obtain rfl : db0.filter (fun e => e.1 ≠ "nyx_subscriptions") ++
          [("nyx_subscriptions", .manifest manifestColumns rows)] = db' := by simpa using h
      have hnone : (db0.filter
          (fun e => e.1 ≠ "nyx_subscriptions")).lookup "nyx_subscriptions" = none := by
        rw [lookup_eq_none_iff]
        intro hmem
        obtain ⟨e, he, heq⟩ := List.mem_map.mp hmem
        have hne := (List.mem_filter.mp he).2
        simp only [decide_eq_true_eq] at hne
        exact hne heq
      rw [lookup_append_left_none _ _ _ hnone]
      simp [List.lookup]
    | append =>
      exfalso
      have hmem := lookup_some_mem db0 _ _ hl
      have hold := hnm _ hmem
      rcases hap : appendTables old (.manifest manifestColumns rows) with _ | merged <;>
        simp only [hap] at h
      · simp at h
      · cases old with
        | data t => simp [appendTables] at hap
        | chunk r => simp [appendTables] at hap
        | manifest c r => exact hold c r rfl

/-- C4: on any non-raising `data_as_db` run, the store's
`nyx_subscriptions` table exists if and only if at least one manifest
row was accumulated, and then it is a single manifest table whose
columns are exactly `file_title, url, table_name, description` and whose
rows are exactly one row per successfully ingested dataset (in loop
order) followed by one row per supplementary pre-chunked text unit; a
dataset that fails to download, carries an unsupported type, or fails to
parse contributes no row, and with zero rows no manifest table is
created. -/
theorem manifest_iff_ingested (env : IngestEnv) (data : List Data)
    (addInfo : Option VectorResult) (ifx : IfExists) (db : DB)
    (h : data_as_db env data addInfo ifx = .ok db) :
    db.lookup "nyx_subscriptions" =
      (if runRows env data addInfo = [] then none
       else some (.manifest manifestColumns (runRows env data addInfo))) := by
  by_cases hempty : data.length = 0
  · have hd : data = [] := List.length_eq_zero.mp hempty
    subst hd
    obtain rfl : ([] : DB) = db := by simpa [data_as_db] using h
    simp [runRows, List.lookup]
  · have hfold := foldl_processData env data [] []
    have hnmT : noManifest ((ingestedData env data).filterMap (ingestedTableVal env)) := by
      intro e he c r
      obtain ⟨d, hd, hsome⟩ := List.mem_filterMap.mp he
      obtain ⟨_, hdata, _⟩ := itv_some_shape env d e.1 e.2 (by rw [hsome, Prod.mk.eta])
      intro heq
      rw [heq] at hdata
      simp [isDataTable] at hdata
    unfold data_as_db at h
    rw [if_neg hempty] at h
    rw [hfold] at h
    simp only [List.map_nil, List.nil_append] at h
    have hid : ingestedAux env [] data = ingestedData env data := rfl
    rw [hid] at h
    have hrun : runRows env data addInfo
        = (ingestedData env data).map manifestRowOfData ++ chunkRows addInfo := by
      unfold runRows
      rw [if_neg hempty]
    rcases hac : afterChunksOf ifx addInfo
        ((ingestedData env data).filterMap (ingestedTableVal env),
         (ingestedData env data).map manifestRowOfData) with e | acc2 <;>
      rw [hac] at h
    · simp at h
    · obtain ⟨dbC, rowsC⟩ := acc2
      replace h : (if rowsC.length > 0 then
          to_sql ifx dbC "nyx_subscriptions" (.manifest manifestColumns rowsC)
        else .ok dbC) = .ok db := h
      have hchar : rowsC = (ingestedData env data).map manifestRowOfData ++ chunkRows addInfo ∧
          noManifest dbC ∧
          (rowsC = [] → dbC = (ingestedData env data).filterMap (ingestedTableVal env)) := by
        cases addInfo with
        | none =>
          obtain ⟨rfl, rfl⟩ : (ingestedData env data).filterMap (ingestedTableVal env) = dbC ∧
              (ingestedData env data).map manifestRowOfData = rowsC := by
            simpa [afterChunksOf] using hac
          exact ⟨by simp [chunkRows], hnmT, fun _ => rfl⟩
        | some vr =>
          by_cases hch : vr.chunks = []
          · obtain ⟨rfl, rfl⟩ : (ingestedData env data).filterMap (ingestedTableVal env) = dbC ∧
                (ingestedData env data).map manifestRowOfData = rowsC := by
              simpa [afterChunksOf, hch] using hac
            exact ⟨by simp [chunkRows, hch], hnmT, fun _ => rfl⟩
          · have hloop : addInfoLoop ifx vr (List.range vr.chunks.length)
                ((ingestedData env data).filterMap (ingestedTableVal env),
                 (ingestedData env data).map manifestRowOfData) = .ok (dbC, rowsC) := by
              simpa [afterChunksOf, hch] using hac
            obtain ⟨hrows, hsome, hpres⟩ := addInfoLoop_ok _ _ _ hloop
            have hlen : vr.chunks.length ≤ vr.metadata.length :=
              le_length_of_range_isSome vr.metadata vr.chunks.length hsome
            have htake := range_filterMap_take vr.metadata manifestRowOfMeta
              vr.chunks.length hlen
            simp only at hrows
            rw [htake] at hrows
            refine ⟨by rw [hrows]; simp [chunkRows, hch], hpres hnmT, ?_⟩
            intro hr0
            exfalso
            rw [hr0] at hrows
            have : (vr.metadata.take vr.chunks.length).length = vr.chunks.length := by
              rw [List.length_take]
              omega
            have hpos : 0 < vr.chunks.length := List.length_pos.mpr hch
            have := congrArg List.length hrows
            simp [List.length_take] at this
            omega
      obtain ⟨hrowsC, hnmC, hempty2⟩ := hchar
      by_cases hr : rowsC = []
      · rw [if_neg (by simp [hr] : ¬ 0 < rowsC.length)] at h
        obtain rfl : dbC = db := by simpa using h
        rw [hempty2 hr]
        have hrr : runRows env data addInfo = [] := by rw [hrun, ← hrowsC, hr]
        rw [hrr]
        simp only [if_pos rfl]
        have hing0 : (ingestedData env data).map manifestRowOfData = [] := by
          rcases List.append_eq_nil.mp (hrowsC ▸ hr) with ⟨h1, _⟩
          exact h1
        have : ingestedData env data = [] := List.map_eq_nil_iff.mp hing0
        rw [this]
        rfl
      · rw [if_pos (by simpa [List.length_pos] using hr)] at h
        have hlook := manifest_write_lookup h hnmC
        rw [hlook, hrun, ← hrowsC]
        rw [if_neg hr]

/-- Supplementary pre-chunked text used by the C4 witness. -/
def vrW : VectorResult :=
  { chunks := ["alpha"], metadata := [⟨"Notes", some "u", "nd"⟩]
    similarities := [], success := true, message := "" }

/-- The store produced by the C4 witness run. -/
def dbW4 : DB :=
  [("sales", .data ⟨["id"], 1⟩),
   ("Notes", .chunk [("alpha", "Notes", some "u")]),
   ("nyx_subscriptions", .manifest manifestColumns
     [⟨"Sales", some "http://x?buyer_org=o", "Sales", "desc"⟩,
      ⟨"Notes", some "u", "Notes", "nd"⟩])]

/-- Witness for C4: one ingested CSV dataset plus one supplementary
chunk; the manifest holds exactly their two rows. -/
theorem manifest_iff_ingested_w :
    data_as_db envFix [dSales] (some vrW) .replace = .ok dbW4 ∧
    runRows envFix [dSales] (some vrW) =
      [⟨"Sales", some "http://x?buyer_org=o", "Sales", "desc"⟩,
       ⟨"Notes", some "u", "Notes", "nd"⟩] ∧
    dbW4.lookup "nyx_subscriptions" =
      (if runRows envFix [dSales] (some vrW) = [] then none
       else some (.manifest manifestColumns (runRows envFix [dSales] (some vrW)))) :=
  ⟨rfl, rfl, manifest_iff_ingested envFix [dSales] (some vrW) .replace dbW4 rfl⟩

end NyxSdk
